import Mathlib

/-!
Shallow embedding of `bpc.py`, a brainfuck-to-python source-to-source compiler
with three optimization tiers, together with proofs checking the repository's
specification against the code.

The embedding mirrors the python source:
* `CodeBuilder` with `start_block` / `end_block` / `append` / `get_code`
  (the `assert` in `end_block` becomes an `Except` error);
* the `Tokenizer`, whose observer-style event dispatch is modelled by producing
  the list of events in emission order (`tokenize`), which the selected
  compiler then consumes one by one (`runEvents` / `step`), exactly as the
  synchronous handler calls do in the source;
* `Compiler0` / `Compiler1` / `Compiler2` as per-event transition functions on
  an explicit state (`Compiler1State`, `Compiler2State`); the python
  `pointer_position` field of `Compiler2` is initialized to 0 and never read
  nor written afterwards, so it is omitted from the state;
* `compile`, validating the configuration (python `assert`s, surfaced as
  configuration errors) before constructing the builder and the compiler.

Machine integers do not occur: all python integers involved are unbounded.
-/

set_option maxRecDepth 10000
set_option maxHeartbeats 2000000

/-- Whitespace characters of python's `str.strip()` and the `\s` regex class
(space, tab, newline, carriage return, vertical tab, form feed). -/
def isPyWhitespace (c : Char) : Bool :=
  c = ' ' || c = '\t' || c = '\n' || c = '\r' || c = '\x0b' || c = '\x0c'

/-- Splitting of a character list on a separator, python `str.split(sep)`:
always returns at least one (possibly empty) group. -/
def splitListOn (sep : Char) : List Char → List (List Char)
  | [] => [[]]
  | c :: rest =>
    match splitListOn sep rest with
    | [] => [[c]]
    | g :: gs => if c = sep then [] :: g :: gs else (c :: g) :: gs

/-- Python `str.split('\n')`. -/
def splitLines (s : String) : List String :=
  (splitListOn '\n' s.data).map String.mk

/-- Python `'\n'.join(lines)`. -/
def joinLines : List String → String
  | [] => ("")
  | [l] => l
  | l :: rest => l ++ "\n" ++ joinLines rest

/-- Python `str.strip()`: remove leading and trailing whitespace. -/
def pyStrip (s : String) : String :=
  String.mk (((s.data.dropWhile isPyWhitespace).reverse.dropWhile isPyWhitespace).reverse)

/-- Errors a compilation can raise.  The python code raises `AssertionError`
in all cases; the `assert`s guarding the configuration in `compile` are the
specification's ConfigurationError, the `assert`s in `CodeBuilder.end_block`
and `Compiler0.on_finish` are its StructuralError. -/
inductive CompileError where
  | configError (msg : String)
  | structuralError (msg : String)
deriving DecidableEq

/-- The code builder: buffered lines, current indentation, and the
indentation configuration (`CodeBuilder.__init__`). -/
structure CodeBuilder where
  code : List String
  indent : Int
  indent_size : Int
  indent_char : Char
deriving DecidableEq

/-- Fresh builder (`CodeBuilder.__init__`). -/
def CodeBuilder.init (indent_size : Int) (indent_char : Char) : CodeBuilder :=
  { code := [], indent := 0, indent_size := indent_size, indent_char := indent_char }

/-- `CodeBuilder.start_block`. -/
def CodeBuilder.start_block (b : CodeBuilder) : CodeBuilder :=
  { b with indent := b.indent + b.indent_size }

/-- `CodeBuilder.end_block`: decrement the indentation, failing (python
`assert self.indent >= 0`, an `AssertionError` with no message) if it would
become negative. -/
def CodeBuilder.end_block (b : CodeBuilder) : Except CompileError CodeBuilder :=
  if b.indent - b.indent_size ≥ 0 then
    .ok { b with indent := b.indent - b.indent_size }
  else
    .error (.structuralError (""))

/-- The indentation text put in front of every appended line: python
`self.indent_char * self.indent` (empty for a non-positive count). -/
def indentText (b : CodeBuilder) : String :=
  String.mk (List.replicate b.indent.toNat b.indent_char)

/-- Lines contributed by one `append` call: the statement text is split on
newlines and each piece is prefixed with the current indentation. -/
def appendedLines (b : CodeBuilder) (statements : String) : List String :=
  (splitLines statements).map (fun s => indentText b ++ s)

/-- `CodeBuilder.append`. -/
def CodeBuilder.append (b : CodeBuilder) (statements : String) : CodeBuilder :=
  { b with code := b.code ++ appendedLines b statements }

/-- Test of python's `re.match(r'^\s*#', row)`: the first character after any
leading whitespace is the comment marker. -/
def isCommentTagged (row : String) : Bool :=
  match row.data.dropWhile isPyWhitespace with
  | '#' :: _ => true
  | _ => false

/-- `CodeBuilder.stream_code`, with the python `comment` and `first_line`
flags as arguments: yield every buffered row, inserting one blank line before
a comment-tagged row when the previous row was not comment-tagged and this is
not the first row. -/
def streamCodeAux : Bool → Bool → List String → List String
  | _, _, [] => []
  | comment, first_line, row :: rest =>
    if isCommentTagged row then
      (if !comment && !first_line then [("")] else []) ++ row :: streamCodeAux true false rest
    else
      row :: streamCodeAux false false rest

/-- `CodeBuilder.get_code`: join the streamed rows with newlines. -/
def CodeBuilder.get_code (b : CodeBuilder) : String :=
  joinLines (streamCodeAux false true b.code)

/-- The eight instruction characters (`Tokenizer.instruction_set`). -/
def instruction_set : List Char := ['+', '-', '<', '>', '.', ',', ']', '[']

/-- Events emitted by the tokenizer, in emission order.  Instruction events
carry the character and its offset, comment events the run text with its
start and end offsets (`Tokenizer._invoke_handlers` arguments). -/
inductive Event where
  | instruction (c : Char) (pos : Nat)
  | comment (text : String) (start stop : Nat)
  | finish
deriving DecidableEq

/-- The scanning loop of `Tokenizer.tokenize`: an instruction character is
emitted on its own, a maximal run of non-instruction characters is emitted as
one comment event.  The extra fuel argument (instantiated with the input
length) only makes the recursion structural; it never runs out. -/
def scanGo : Nat → List Char → Nat → List Event
  | 0, _, _ => []
  | _ + 1, [], _ => []
  | fuel + 1, c :: rest, i =>
    if c ∈ instruction_set then
      .instruction c i :: scanGo fuel rest (i + 1)
    else
      let run := c :: rest.takeWhile (fun x => !(x ∈ instruction_set : Bool))
      .comment (String.mk run) i (i + run.length) ::
        scanGo fuel (rest.dropWhile (fun x => !(x ∈ instruction_set : Bool))) (i + run.length)

/-- `Tokenizer.tokenize`: scan the source, then emit the single finish
event. -/
def tokenize (code : String) : List Event :=
  scanGo code.data.length code.data 0 ++ [.finish]

/-- `Compiler0.write_incipit`: the three-line preamble. -/
def write_incipit (memory_size : Int) (b : CodeBuilder) : CodeBuilder :=
  ((b.append ("# -*- coding: UTF-8 -*-")).append
      ("m = [ 0 ] * " ++ toString memory_size)).append ("p = 0")

/-- `Compiler0.on_instruction`: direct one-to-one translation. -/
def on_instruction0 (memory_size : Int) (b : CodeBuilder) (instruction : Char) :
    Except CompileError CodeBuilder :=
  if instruction = '+' || instruction = '-' then
    .ok (b.append ("m[p] " ++ String.mk [instruction] ++ "= 1"))
  else if instruction = '<' then
    .ok (b.append ("p = (p - 1) % " ++ toString memory_size))
  else if instruction = '>' then
    .ok (b.append ("p = (p + 1) % " ++ toString memory_size))
  else if instruction = ',' then
    .ok (b.append ("m[p] = int(raw_input(\"Insert a number: \") or 0)"))
  else if instruction = '.' then
    .ok (b.append ("print m[p]"))
  else if instruction = '[' then
    .ok ((b.append ("while m[p]:")).start_block)
  else if instruction = ']' then
    b.end_block
  else
    .ok b

/-- `Compiler0.on_comment`: strip every line of the run and append the
non-blank ones as comment lines. -/
def on_comment0 (b : CodeBuilder) (comment : String) : CodeBuilder :=
  (splitLines comment).foldl
    (fun b line =>
      let c := pyStrip line
      if c ≠ ("") then b.append ("# " ++ c) else b)
    b

/-- The multi-line dump epilogue text appended by
`Compiler0._write_dump_memory`, after the `str.format` substitution with
`dump_step = 16` (the trailing newline makes `append` add a final empty
line, as in the source). -/
def dump_memory_text (memory_size : Int) : String :=
  "print \x27\\n~~~ Program Terminated ~~~\x27\n" ++
  "print \x27Pointer:\x27, p\n" ++
  "print \x27Memory:\x27\n" ++
  "m += [ 0 ] * (16 - " ++ toString memory_size ++ " % 16)\n" ++
  "dump = (\x27\x7b:4d\x7d\x27 * 16).format\n" ++
  "for i in range(0, " ++ toString memory_size ++ ", 16):\n" ++
  "    print \x27\x7b:7d\x7d | \x7b\x7d\x27.format(i, dump(*m[i:i + 16]))\n"

/-- `Compiler0._write_dump_memory`. -/
def write_dump_memory (memory_size : Int) (comments : Bool) (b : CodeBuilder) : CodeBuilder :=
  let b := if comments then b.append ("# dump the memory") else b
  b.append (dump_memory_text memory_size)

/-- `Compiler0.on_finish`: fail (python `assert self.builder.indent == 0`)
when loops are left open, otherwise optionally append the dump epilogue. -/
def on_finish0 (memory_size : Int) (comments dump_memory : Bool) (b : CodeBuilder) :
    Except CompileError CodeBuilder :=
  if b.indent = 0 then
    .ok (if dump_memory then write_dump_memory memory_size comments b else b)
  else
    .error (.structuralError ("Some loops are not closed"))

/-- Accumulation state of `Compiler1`: the pending instruction and its
count. -/
structure Compiler1State where
  operation : Option Char
  times : Nat
deriving DecidableEq

/-- The four accumulable instructions (`self.accumulated`). -/
def accumulated : List Char := ['+', '-', '<', '>']

/-- `Compiler1._flush`: emit one fused statement for the pending run. -/
def flush1 (memory_size : Int) (st : Compiler1State) (b : CodeBuilder) : CodeBuilder :=
  if st.operation = some '+' || st.operation = some '-' then
    b.append ("m[p] " ++ String.mk st.operation.toList ++ "= " ++ toString st.times)
  else if st.operation = some '<' then
    b.append ("p = (p - " ++ toString st.times ++ ") % " ++ toString memory_size)
  else if st.operation = some '>' then
    b.append ("p = (p + " ++ toString st.times ++ ") % " ++ toString memory_size)
  else
    b

/-- `Compiler1.on_instruction`: count repetitions of the pending accumulable
instruction, flush on any other instruction. -/
def on_instruction1 (memory_size : Int) (st : Compiler1State) (b : CodeBuilder)
    (instruction : Char) : Except CompileError (Compiler1State × CodeBuilder) :=
  if instruction ∈ accumulated then
    if some instruction = st.operation then
      .ok ({ st with times := st.times + 1 }, b)
    else
      .ok ({ operation := some instruction, times := 1 }, flush1 memory_size st b)
  else do
    let b := flush1 memory_size st b
    let b ← on_instruction0 memory_size b instruction
    .ok ({ operation := none, times := 0 }, b)

/-- `Compiler1.on_finish`: flush the pending run, then the tier-0 finish. -/
def on_finish1 (memory_size : Int) (comments dump_memory : Bool) (st : Compiler1State)
    (b : CodeBuilder) : Except CompileError CodeBuilder :=
  on_finish0 memory_size comments dump_memory (flush1 memory_size st b)

/-- Accumulation state of `Compiler2`: the pending instruction with its count
and the pending symbolic pointer offset. -/
structure Compiler2State where
  operation : Option Char
  times : Nat
  pointer_move : Int
deriving DecidableEq

/-- `Compiler2._get_relative_pointer_string`. -/
def get_relative_pointer_string (pointer_move : Int) : String :=
  if pointer_move ≠ 0 then
    "p " ++ (if pointer_move > 0 then ("+") else ("-")) ++ " " ++ toString pointer_move.natAbs
  else
    ("p")

/-- `Compiler2._flush`: arithmetic runs are emitted at the relative address,
move runs are folded into the pending pointer offset. -/
def flush2 (st : Compiler2State) (b : CodeBuilder) : Compiler2State × CodeBuilder :=
  if st.operation = some '+' || st.operation = some '-' then
    (st, b.append ("m[" ++ get_relative_pointer_string st.pointer_move ++ "] " ++
        String.mk st.operation.toList ++ "= " ++ toString st.times))
  else if st.operation = some '<' then
    ({ st with pointer_move := st.pointer_move - (st.times : Int) }, b)
  else if st.operation = some '>' then
    ({ st with pointer_move := st.pointer_move + (st.times : Int) }, b)
  else
    (st, b)

/-- `Compiler2._commit_pointer`: when the pending offset is nonzero, emit the
pointer reassignment (wraparound applied) and reset the offset. -/
def commit_pointer (memory_size : Int) (st : Compiler2State) (b : CodeBuilder) :
    Compiler2State × CodeBuilder :=
  if st.pointer_move ≠ 0 then
    ({ st with pointer_move := 0 },
      b.append ("p = (" ++ get_relative_pointer_string st.pointer_move ++ ") % " ++
        toString memory_size))
  else
    (st, b)

/-- `Compiler2.on_instruction`. -/
def on_instruction2 (memory_size : Int) (st : Compiler2State) (b : CodeBuilder)
    (instruction : Char) : Except CompileError (Compiler2State × CodeBuilder) :=
  if instruction ∈ accumulated && some instruction = st.operation then
    .ok ({ st with times := st.times + 1 }, b)
  else
    let sb := flush2 st b
    let st := { sb.1 with times := 1, operation := some instruction }
    let b := sb.2
    if instruction = ',' then
      .ok (st, b.append ("m[" ++ get_relative_pointer_string st.pointer_move ++
          "] = int(raw_input(\"Insert a number: \") or 0)"))
    else if instruction = '.' then
      .ok (st, b.append ("print m[" ++ get_relative_pointer_string st.pointer_move ++ "]"))
    else if instruction = '[' then
      let sb := commit_pointer memory_size st b
      .ok (sb.1, (sb.2.append ("while m[" ++
          get_relative_pointer_string sb.1.pointer_move ++ "]:")).start_block)
    else if instruction = ']' then
      let sb := commit_pointer memory_size st b
      do
        let b ← sb.2.end_block
        .ok (sb.1, b)
    else
      .ok (st, b)

/-- The state of whichever compiler tier was selected (python chooses the
class `Compiler0` / `Compiler1` / `Compiler2`; `Compiler0` keeps no
accumulation state of its own). -/
inductive CompilerState where
  | s0
  | s1 (st : Compiler1State)
  | s2 (st : Compiler2State)
deriving DecidableEq

/-- Dispatch of one tokenizer event to the selected compiler's handlers.
Comment events reach `Compiler0.on_comment` only when the comment handler was
registered (`if self.comments` in `Compiler0.__init__`). -/
def step (memory_size : Int) (comments dump_memory : Bool) :
    CompilerState × CodeBuilder → Event → Except CompileError (CompilerState × CodeBuilder)
  | (.s0, b), .instruction c _ => do
    let b ← on_instruction0 memory_size b c
    .ok (.s0, b)
  | (.s0, b), .comment text _ _ =>
    .ok (.s0, if comments then on_comment0 b text else b)
  | (.s0, b), .finish => do
    let b ← on_finish0 memory_size comments dump_memory b
    .ok (.s0, b)
  | (.s1 st, b), .instruction c _ => do
    let r ← on_instruction1 memory_size st b c
    .ok (.s1 r.1, r.2)
  | (.s1 st, b), .comment text _ _ =>
    .ok (.s1 st, if comments then on_comment0 b text else b)
  | (.s1 st, b), .finish => do
    let b ← on_finish1 memory_size comments dump_memory st b
    .ok (.s1 st, b)
  | (.s2 st, b), .instruction c _ => do
    let r ← on_instruction2 memory_size st b c
    .ok (.s2 r.1, r.2)
  | (.s2 st, b), .comment text _ _ =>
    .ok (.s2 st, if comments then on_comment0 b text else b)
  | (.s2 st, b), .finish => do
    let b ← on_finish0 memory_size comments dump_memory b
    .ok (.s2 st, b)

/-- The tokenizer's synchronous dispatch loop: deliver each event in order to
the compiler, stopping at the first error (a python `AssertionError` aborts
`tokenize`). -/
def runEvents (memory_size : Int) (comments dump_memory : Bool) :
    CompilerState × CodeBuilder → List Event → Except CompileError (CompilerState × CodeBuilder)
  | sb, [] => .ok sb
  | sb, e :: evs => do
    let sb' ← step memory_size comments dump_memory sb e
    runEvents memory_size comments dump_memory sb' evs

/-- Initial state of the selected compiler tier. -/
def initState (optimizations : Int) : CompilerState :=
  if optimizations = 0 then .s0
  else if optimizations = 1 then .s1 { operation := none, times := 0 }
  else .s2 { operation := none, times := 0, pointer_move := 0 }

/-- Configuration of one compilation (the arguments of python `compile`). -/
structure Config where
  memory : Int
  comments : Bool
  dump : Bool
  indent : Int
  tab_indent : Bool
  optimizations : Int
deriving DecidableEq

/-- The `compile` pipeline up to (but not including) the final rendering:
validate the configuration, build the preamble, then feed every tokenizer
event to the selected compiler.  The builder and the compiler are only
constructed after all three validation checks pass. -/
def compileBuilder (code : String) (cfg : Config) : Except CompileError CodeBuilder :=
  if ¬ cfg.memory > 0 then
    .error (.configError ("Memory must be larger than 0"))
  else if ¬ cfg.indent > 0 then
    .error (.configError ("Indentation width must be larger than 0"))
  else if ¬ (cfg.optimizations = 0 ∨ cfg.optimizations = 1 ∨ cfg.optimizations = 2) then
    .error (.configError ("Optimization level must be 0, 1 or 2"))
  else
    let builder := write_incipit cfg.memory
      (CodeBuilder.init cfg.indent (if cfg.tab_indent then '\t' else ' '))
    match runEvents cfg.memory cfg.comments cfg.dump
        (initState cfg.optimizations, builder) (tokenize code) with
    | .ok sb => .ok sb.2
    | .error e => .error e

/-- Python `compile`: run the pipeline and render the builder's buffer. -/
def compile (code : String) (cfg : Config) : Except CompileError String :=
  (compileBuilder code cfg).map CodeBuilder.get_code

/-- Decidable equality of `Except` results, so that concrete compilations can
be checked by `decide`. -/
def exceptDecEq {ε α : Type} [DecidableEq ε] [DecidableEq α] : DecidableEq (Except ε α)
  | .error e, .error f =>
    if h : e = f then isTrue (h ▸ rfl) else isFalse (fun c => by cases c; exact h rfl)
  | .error _, .ok _ => isFalse (fun c => by cases c)
  | .ok _, .error _ => isFalse (fun c => by cases c)
  | .ok a, .ok b =>
    if h : a = b then isTrue (h ▸ rfl) else isFalse (fun c => by cases c; exact h rfl)

instance {ε α : Type} [DecidableEq ε] [DecidableEq α] : DecidableEq (Except ε α) :=
  exceptDecEq

/-- The executable statements of a builder: the buffered lines that are not
comment-tagged. -/
def execLines (b : CodeBuilder) : List String :=
  b.code.filter (fun l => !(isCommentTagged l))

/-- The source with every comment run removed: only the instruction
characters remain. -/
def stripComments (code : String) : String :=
  String.mk (code.data.filter (fun c => (c ∈ instruction_set : Bool)))

/-- Two builders with the same indentation state and the same executable
statements (their comment lines may differ). -/
def bSim (b1 b2 : CodeBuilder) : Prop :=
  b1.indent = b2.indent ∧ b1.indent_size = b2.indent_size ∧
    b1.indent_char = b2.indent_char ∧ execLines b1 = execLines b2

/-- Event streams up to comment events and source offsets. -/
def eraseComments : List Event → List Event
  | [] => []
  | .instruction c _ :: es => .instruction c 0 :: eraseComments es
  | .comment _ _ _ :: es => eraseComments es
  | .finish :: es => .finish :: eraseComments es

/-- A digit character is never a newline. -/
lemma digitChar_ne_newline (n : Nat) : Nat.digitChar n ≠ '\n' := by
  rcases Nat.lt_or_ge n 16 with h | h
  · interval_cases n <;> decide
  · unfold Nat.digitChar
    repeat rw [if_neg (by omega)]
    decide

/-- Digit accumulation never produces a newline. -/
lemma toDigitsCore_ne_newline (base : Nat) :
    ∀ (fuel n : Nat) (acc : List Char), (∀ c ∈ acc, c ≠ '\n') →
      ∀ c ∈ Nat.toDigitsCore base fuel n acc, c ≠ '\n' := by
  intro fuel
  induction fuel with
  | zero => intro n acc hacc c hc; exact hacc c hc
  | succ fuel ih =>
    intro n acc hacc c hc
    unfold Nat.toDigitsCore at hc
    dsimp only at hc
    split at hc
    · rcases List.mem_cons.1 hc with h | h
      · exact h ▸ digitChar_ne_newline _
      · exact hacc c h
    · refine ih _ _ ?_ c hc
      intro d hd
      rcases List.mem_cons.1 hd with h | h
      · exact h ▸ digitChar_ne_newline _
      · exact hacc d h

/-- The decimal rendering of a natural number contains no newline. -/
lemma natRepr_ne_newline (n : Nat) : ∀ c ∈ (Nat.repr n).data, c ≠ '\n' := by
  intro c hc
  exact toDigitsCore_ne_newline 10 (n + 1) n [] (by simp) c hc

/-- The decimal rendering of an integer (python `'%d' % i`) contains no
newline. -/
lemma intToString_ne_newline (i : Int) : ∀ c ∈ (toString i).data, c ≠ '\n' := by
  cases i with
  | ofNat m =>
    intro c hc
    exact natRepr_ne_newline m c hc
  | negSucc m =>
    intro c hc
    have : (toString (Int.negSucc m)).data = '-' :: (Nat.repr (m + 1)).data := by
      show (("-" : String) ++ toString (m + 1)).data = _
      rw [String.data_append]
      rfl
    rw [this] at hc
    rcases List.mem_cons.1 hc with h | h
    · exact h ▸ (by decide)
    · exact natRepr_ne_newline _ c h

/-- Splitting on a separator that does not occur returns the single whole
group. -/
lemma splitListOn_single (sep : Char) (l : List Char) (h : sep ∉ l) :
    splitListOn sep l = [l] := by
  induction l with
  | nil => rfl
  | cons c rest ih =>
    have hc : c ≠ sep := fun hh => h (hh ▸ List.mem_cons_self c rest)
    have hr : sep ∉ rest := fun hh => h (List.mem_cons_of_mem c hh)
    unfold splitListOn
    rw [ih hr]
    simp [hc]

/-- A newline-free statement is a single line. -/
lemma splitLines_single (s : String) (h : ∀ c ∈ s.data, c ≠ '\n') :
    splitLines s = [s] := by
  unfold splitLines
  rw [splitListOn_single _ _ (fun hc => h '\n' hc rfl)]
  cases s
  rfl

/-- The empty string is a left unit for append. -/
lemma mk_nil_append (s : String) : String.mk [] ++ s = s := by
  cases s
  rfl

/-- A line whose first character is neither whitespace nor the comment marker
is not comment-tagged. -/
lemma isCommentTagged_false_of_data (s : String) (c : Char) (l : List Char)
    (hs : s.data = c :: l) (h1 : isPyWhitespace c = false) (h2 : c ≠ '#') :
    isCommentTagged s = false := by
  unfold isCommentTagged
  rw [hs, List.dropWhile_cons, if_neg (by simp [h1])]
  split
  · next heq =>
    cases heq
    exact absurd rfl h2
  · rfl

/-- Reference rendering pass, written from the specification's words on
`render()`: walking the buffered lines while remembering the previously
emitted line, insert one blank line immediately before a comment-tagged line
whenever this is not the first line overall and the previous line was not
itself comment-tagged; every buffered line is kept verbatim, in order, so
non-comment lines are never altered, reordered or dropped. -/
def renderSpec : Option String → List String → List String
  | _, [] => []
  | prev, row :: rest =>
    (if isCommentTagged row &&
        (match prev with
          | none => false
          | some q => !isCommentTagged q) then [("")] else []) ++
      row :: renderSpec (some row) rest

/-- The streaming pass agrees with the reference pass once a first line has
been emitted. -/
lemma streamCodeAux_renderSpec (rows : List String) :
    ∀ q : String, streamCodeAux (isCommentTagged q) false rows = renderSpec (some q) rows := by
  induction rows with
  | nil => intro q; rfl
  | cons row rest ih =>
    intro q
    unfold streamCodeAux renderSpec
    by_cases h : isCommentTagged row
    · rw [if_pos h]
      have : streamCodeAux true false rest = renderSpec (some row) rest := by
        rw [← ih row, h]
      rw [this]
      simp [h]
    · rw [if_neg h]
      have : streamCodeAux false false rest = renderSpec (some row) rest := by
        rw [← ih row]
        simp [Bool.not_eq_true] at h
        rw [h]
      rw [this]
      simp [h]

/-- An `end_block` failure carries the empty assertion message. -/
lemma end_block_error (b : CodeBuilder) (err : CompileError)
    (h : b.end_block = .error err) : err = .structuralError ("") := by
  unfold CodeBuilder.end_block at h
  split_ifs at h
  cases h
  rfl

/-- `Compiler0.on_instruction` can only fail structurally. -/
lemma on_instruction0_error (ms : Int) (b : CodeBuilder) (c : Char) (err : CompileError)
    (h : on_instruction0 ms b c = .error err) : err = .structuralError ("") := by
  unfold on_instruction0 at h
  split_ifs at h <;> first
    | cases h
    | exact end_block_error _ _ h

/-- `Compiler1.on_instruction` can only fail structurally. -/
lemma on_instruction1_error (ms : Int) (st : Compiler1State) (b : CodeBuilder) (c : Char)
    (err : CompileError) (h : on_instruction1 ms st b c = .error err) :
    err = .structuralError ("") := by
  unfold on_instruction1 at h
  split_ifs at h <;>
    first
      | cases h
      | (simp only [bind, Except.bind] at h
         split at h
         · rename_i e heq
           cases h
           exact on_instruction0_error _ _ _ _ heq
         · cases h)

/-- `Compiler2.on_instruction` can only fail structurally. -/
lemma on_instruction2_error (ms : Int) (st : Compiler2State) (b : CodeBuilder) (c : Char)
    (err : CompileError) (h : on_instruction2 ms st b c = .error err) :
    err = .structuralError ("") := by
  unfold on_instruction2 at h
  split_ifs at h <;>
    first
      | cases h
      | (simp only [bind, Except.bind] at h
         split at h
         · rename_i e heq
           cases h
           exact end_block_error _ _ heq
         · cases h)

/-- `Compiler0.on_finish` can only fail with the unclosed-loop message. -/
lemma on_finish0_error (ms : Int) (cm dm : Bool) (b : CodeBuilder) (err : CompileError)
    (h : on_finish0 ms cm dm b = .error err) :
    err = .structuralError ("Some loops are not closed") := by
  unfold on_finish0 at h
  split_ifs at h
  cases h
  rfl

/-- Event dispatch never raises a configuration error. -/
lemma step_error_structural (ms : Int) (cm dm : Bool) (sb : CompilerState × CodeBuilder)
    (e : Event) (err : CompileError) (h : step ms cm dm sb e = .error err) :
    ∃ msg, err = .structuralError msg := by
  obtain ⟨s, b⟩ := sb
  cases s <;> cases e <;> simp only [step, bind, Except.bind] at h
  · cases hh : on_instruction0 ms b _ with
    | ok b' => rw [hh] at h; cases h
    | error e => rw [hh] at h; cases h; exact ⟨_, on_instruction0_error _ _ _ _ hh⟩
  · cases h
  · cases hh : on_finish0 ms cm dm b with
    | ok b' => rw [hh] at h; cases h
    | error e => rw [hh] at h; cases h; exact ⟨_, on_finish0_error _ _ _ _ _ hh⟩
  · cases hh : on_instruction1 ms _ b _ with
    | ok r => rw [hh] at h; cases h
    | error e => rw [hh] at h; cases h; exact ⟨_, on_instruction1_error _ _ _ _ _ hh⟩
  · cases h
  · cases hh : on_finish1 ms cm dm _ b with
    | ok b' => rw [hh] at h; cases h
    | error e =>
      rw [hh] at h
      cases h
      exact ⟨_, on_finish0_error _ _ _ _ _ hh⟩
  · cases hh : on_instruction2 ms _ b _ with
    | ok r => rw [hh] at h; cases h
    | error e => rw [hh] at h; cases h; exact ⟨_, on_instruction2_error _ _ _ _ _ hh⟩
  · cases h
  · cases hh : on_finish0 ms cm dm b with
    | ok b' => rw [hh] at h; cases h
    | error e => rw [hh] at h; cases h; exact ⟨_, on_finish0_error _ _ _ _ _ hh⟩

/-- The dispatch loop never raises a configuration error. -/
lemma runEvents_error_structural (ms : Int) (cm dm : Bool) :
    ∀ (evs : List Event) (sb : CompilerState × CodeBuilder) (err : CompileError),
      runEvents ms cm dm sb evs = .error err → ∃ msg, err = .structuralError msg := by
  intro evs
  induction evs with
  | nil => intro sb err h; cases h
  | cons e evs ih =>
    intro sb err h
    simp only [runEvents, bind, Except.bind] at h
    cases hh : step ms cm dm sb e with
    | ok sb' =>
      rw [hh] at h
      exact ih sb' err h
    | error e' =>
      rw [hh] at h
      cases h
      exact step_error_structural _ _ _ _ _ _ hh

/-- C9: the render pass of `CodeBuilder` agrees with the specification's
description: it inserts exactly one blank line immediately before each
comment-tagged line whose previous emitted line is not comment-tagged and
which is not the first line overall, and it keeps every buffered line
verbatim, in order (in particular every non-comment line appears in the
output exactly as buffered), as `renderSpec` does by construction. -/
theorem c9_render_blank_lines (b : CodeBuilder) :
    b.get_code = joinLines (renderSpec none b.code) := by
  unfold CodeBuilder.get_code
  congr 1
  cases hb : b.code with
  | nil => rfl
  | cons row rest =>
    unfold streamCodeAux renderSpec
    by_cases h : isCommentTagged row
    · rw [if_pos h]
      have : streamCodeAux true false rest = renderSpec (some row) rest := by
        rw [← streamCodeAux_renderSpec rest row, h]
      rw [this]
      simp [h]
    · rw [if_neg h]
      have : streamCodeAux false false rest = renderSpec (some row) rest := by
        rw [← streamCodeAux_renderSpec rest row]
        simp only [Bool.not_eq_true] at h
        rw [h]
      rw [this]
      simp [h]

/-- C8: `compile` fails with a configuration error exactly when
`memory_size ≤ 0`, `indent_width ≤ 0`, or the optimization tier is outside
`{0, 1, 2}`; with a valid configuration no configuration error is ever
raised (the generators and the builder are only constructed, and the event
loop only runs, in the final validated branch of `compileBuilder`). -/
theorem c8_configuration_validation (code : String) (cfg : Config) :
    (∃ msg, compile code cfg = .error (.configError msg)) ↔
      (cfg.memory ≤ 0 ∨ cfg.indent ≤ 0 ∨
        ¬ (cfg.optimizations = 0 ∨ cfg.optimizations = 1 ∨ cfg.optimizations = 2)) := by
  unfold compile compileBuilder
  constructor
  · rintro ⟨msg, hmsg⟩
    by_contra hvalid
    push_neg at hvalid
    obtain ⟨h1, h2, h3⟩ := hvalid
    rw [if_neg (by omega), if_neg (by omega), if_neg (not_not_intro h3)] at hmsg
    dsimp only at hmsg
    split at hmsg
    · simp [Except.map] at hmsg
    · rename_i e heq
      simp only [Except.map] at hmsg
      cases hmsg
      obtain ⟨m, hm⟩ := runEvents_error_structural _ _ _ _ _ _ heq
      cases hm
  · intro h
    by_cases h1 : cfg.memory ≤ 0
    · rw [if_pos (by omega)]
      exact ⟨_, rfl⟩
    · by_cases h2 : cfg.indent ≤ 0
      · rw [if_neg (by omega), if_pos (by omega)]
        exact ⟨_, rfl⟩
      · have h3 : ¬ (cfg.optimizations = 0 ∨ cfg.optimizations = 1 ∨ cfg.optimizations = 2) := by
          tauto
        rw [if_neg (by omega), if_neg (by omega), if_pos h3]
        exact ⟨_, rfl⟩

/-- C1 (code bug): tier 2 compiles the program `+` to the very same target
text as the empty program, while tier 0 additionally emits `m[p] += 1`;
since identical target texts compute identical final memories, tier 2
cannot agree with tier 0 on both programs — the trailing accumulated run is
silently dropped because `Compiler2`, unlike `Compiler1`, never flushes at
the finish event. -/
theorem c1_tier2_drops_trailing_run :
    compile ("+") ⟨5, false, false, 4, false, 2⟩ =
        compile ("") ⟨5, false, false, 4, false, 2⟩ ∧
      compile ("+") ⟨5, false, false, 4, false, 0⟩ =
        .ok ("# -*- coding: UTF-8 -*-\nm = [ 0 ] * 5\np = 0\nm[p] += 1") ∧
      compile ("") ⟨5, false, false, 4, false, 0⟩ =
        .ok ("# -*- coding: UTF-8 -*-\nm = [ 0 ] * 5\np = 0") := by
  refine ⟨by decide, by decide, by decide⟩

/-- C2 counterexample: compiling `>+` at tier 2 ends with pending offset 1
still uncommitted (`pointer_move = 1` in the final compiler state, and no
pointer statement was ever emitted: the builder still holds only the
three-line preamble), so a compilation can end with a nonzero uncommitted
pending offset — there is no commit at Finish. -/
theorem c2_counterexample_pending_offset_at_finish :
    runEvents 5 false false
        (.s2 { operation := none, times := 0, pointer_move := 0 },
          write_incipit 5 (CodeBuilder.init 4 ' '))
        (tokenize (">+")) =
      .ok (.s2 { operation := some '+', times := 1, pointer_move := 1 },
        write_incipit 5 (CodeBuilder.init 4 ' ')) := by
  decide

/-- C3 counterexample: for `+++>>>` at tier 2 the generated program holds
exactly one statement beyond the preamble — `m[p] += 3` — and no committed
pointer reassignment statement, because end-of-program does not force a
commit. -/
theorem c3_counterexample_no_commit :
    compile ("+++>>>") ⟨5, false, false, 4, false, 2⟩ =
      .ok ("# -*- coding: UTF-8 -*-\nm = [ 0 ] * 5\np = 0\nm[p] += 3") := by
  decide

/-- C5 counterexample: at tier 1 with comments enabled, the comment run in
`++x++` does not flush the pending run of `+`: the accumulated count keeps
growing across the comment event and a single fused statement `m[p] += 4`
is emitted at finish (the claim would instead predict two `m[p] += 2`
statements around the comment line). -/
theorem c5_counterexample_comment_does_not_flush :
    compile ("++x++") ⟨5, true, false, 4, false, 1⟩ =
      .ok ("# -*- coding: UTF-8 -*-\nm = [ 0 ] * 5\np = 0\n\n# x\nm[p] += 4") := by
  decide

/-- C7 (code bug): with `memory_size = 5` and dumping enabled, tier 2
compiles `>` to the very same target text as the empty program — the
epilogue therefore reports the untouched pointer 0 — while the tier-0
target contains the committed move `p = (p + 1) % 5`, after which its
epilogue reports pointer 1, the value step-by-step execution of `>`
leaves. -/
theorem c7_dump_reports_stale_pointer :
    compile (">") ⟨5, false, true, 4, false, 2⟩ =
        compile ("") ⟨5, false, true, 4, false, 2⟩ ∧
      (compile (">") ⟨5, false, true, 4, false, 0⟩).map
          (fun out => (splitLines out).contains ("p = (p + 1) % 5")) = .ok true := by
  refine ⟨by decide, by decide⟩

/-- A newline-free prefix followed by a rendered integer is a single line. -/
lemma splitLines_append_int (pre : String) (hpre : ∀ c ∈ pre.data, c ≠ '\n') (i : Int) :
    splitLines (pre ++ toString i) = [pre ++ toString i] := by
  apply splitLines_single
  intro c hc
  rw [String.data_append] at hc
  rcases List.mem_append.1 hc with h | h
  · exact hpre c h
  · exact intToString_ne_newline _ c h

/-- A line starting with a plain non-whitespace, non-marker character stays
untagged whatever is appended after it. -/
lemma isCommentTagged_append_head (pre : String) (c : Char) (l : List Char)
    (hpre : pre.data = c :: l) (h1 : isPyWhitespace c = false) (h2 : c ≠ '#')
    (t : String) : isCommentTagged (pre ++ t) = false := by
  apply isCommentTagged_false_of_data _ c (l ++ t.data)
  · rw [String.data_append, hpre]
    rfl
  · exact h1
  · exact h2

/-- The three-line preamble produced by `write_incipit` on a fresh builder. -/
lemma write_incipit_eq (ms ind : Int) (ch : Char) :
    write_incipit ms (CodeBuilder.init ind ch) =
      { code := [("# -*- coding: UTF-8 -*-"), "m = [ 0 ] * " ++ toString ms, ("p = 0")],
        indent := 0, indent_size := ind, indent_char := ch } := by
  unfold write_incipit CodeBuilder.append appendedLines indentText CodeBuilder.init
  rw [splitLines_append_int ("m = [ 0 ] * ") (by decide) ms]
  rw [show splitLines ("# -*- coding: UTF-8 -*-") = [("# -*- coding: UTF-8 -*-")] from by decide]
  rw [show splitLines ("p = 0") = [("p = 0")] from by decide]
  simp [mk_nil_append]

/-- C10: the empty source tokenizes to the single finish event, and under
any valid configuration with dumping disabled every tier compiles it to
exactly the three-line preamble: the encoding comment, the zero-initialized
memory declaration of length `memory_size`, and the pointer initialization
to 0. -/
theorem c10_empty_source (cfg : Config) (hm : 0 < cfg.memory) (hi : 0 < cfg.indent)
    (ht : cfg.optimizations = 0 ∨ cfg.optimizations = 1 ∨ cfg.optimizations = 2)
    (hd : cfg.dump = false) :
    tokenize ("") = [Event.finish] ∧
    compile ("") cfg =
      .ok (joinLines [("# -*- coding: UTF-8 -*-"),
        "m = [ 0 ] * " ++ toString cfg.memory, ("p = 0")]) := by
  refine ⟨by decide, ?_⟩
  have htok : tokenize ("") = [Event.finish] := by decide
  have hb := write_incipit_eq cfg.memory cfg.indent (if cfg.tab_indent then '\t' else ' ')
  have htag1 : isCommentTagged ("# -*- coding: UTF-8 -*-") = true := by decide
  have htag2 : isCommentTagged ("m = [ 0 ] * " ++ toString cfg.memory) = false :=
    isCommentTagged_append_head ("m = [ 0 ] * ") 'm' (" = [ 0 ] * ").data (by decide)
      (by decide) (by decide) (toString cfg.memory)
  have htag3 : isCommentTagged ("p = 0") = false := by decide
  have hstream : streamCodeAux false true
      [("# -*- coding: UTF-8 -*-"), "m = [ 0 ] * " ++ toString cfg.memory, ("p = 0")] =
      [("# -*- coding: UTF-8 -*-"), "m = [ 0 ] * " ++ toString cfg.memory, ("p = 0")] := by
    simp [streamCodeAux, htag1, htag2, htag3]
  unfold compile compileBuilder
  rw [if_neg (by omega), if_neg (by omega), if_neg (not_not_intro ht)]
  dsimp only
  rw [htok, hb]
  rcases ht with h | h | h <;>
    · rw [h]
      simp only [initState, runEvents, step, bind, Except.bind, on_finish1, on_finish0,
        flush1, hd, Except.map, CodeBuilder.get_code]
      simp [hstream]

/-- Witness for C10 at a concrete configuration (tier 1, memory 7). -/
theorem c10_empty_source_witness :
    (0 : Int) < 7 ∧ (0 : Int) < 2 ∧
      (tokenize ("") = [Event.finish] ∧
        compile ("") ⟨7, true, false, 2, true, 1⟩ =
          .ok (joinLines [("# -*- coding: UTF-8 -*-"),
            "m = [ 0 ] * " ++ toString (7 : Int), ("p = 0")])) :=
  ⟨by decide, by decide,
    c10_empty_source ⟨7, true, false, 2, true, 1⟩ (by decide) (by decide)
      (Or.inr (Or.inl rfl)) rfl⟩

/-- C3 (amended): for the input `+++>>>` under any valid configuration with
dumping disabled, tier 0 emits 6 single-unit executable statements, one per
character; tier 1 emits exactly the 2 fused statements `m[p] += 3` and
`p = (p + 3) % memory_size`; tier 2 emits exactly 1 arithmetic statement
`m[p] += 3` (at the zero relative offset) and no pointer reassignment
statement, because end-of-program does not force a commit. -/
theorem c3_fusion_statement_counts (ms ind : Int) (cm tab : Bool)
    (hm : 0 < ms) (hi : 0 < ind) :
    compileBuilder ("+++>>>") ⟨ms, cm, false, ind, tab, 0⟩ =
      .ok (CodeBuilder.mk
        [("# -*- coding: UTF-8 -*-"), "m = [ 0 ] * " ++ toString ms, ("p = 0"),
          ("m[p] += 1"), ("m[p] += 1"), ("m[p] += 1"),
          "p = (p + 1) % " ++ toString ms, "p = (p + 1) % " ++ toString ms,
          "p = (p + 1) % " ++ toString ms]
        0 ind (if tab then '\t' else ' ')) ∧
    compileBuilder ("+++>>>") ⟨ms, cm, false, ind, tab, 1⟩ =
      .ok (CodeBuilder.mk
        [("# -*- coding: UTF-8 -*-"), "m = [ 0 ] * " ++ toString ms, ("p = 0"),
          ("m[p] += 3"), "p = (p + 3) % " ++ toString ms]
        0 ind (if tab then '\t' else ' ')) ∧
    compileBuilder ("+++>>>") ⟨ms, cm, false, ind, tab, 2⟩ =
      .ok (CodeBuilder.mk
        [("# -*- coding: UTF-8 -*-"), "m = [ 0 ] * " ++ toString ms, ("p = 0"),
          ("m[p] += 3")]
        0 ind (if tab then '\t' else ' ')) := by
  have htok : tokenize ("+++>>>") =
      [.instruction '+' 0, .instruction '+' 1, .instruction '+' 2,
        .instruction '>' 3, .instruction '>' 4, .instruction '>' 5, .finish] := by decide
  have e1 : ("m[p] " ++ String.mk ['+'] ++ "= 1") = ("m[p] += 1") := rfl
  have e2 : ("m[p] " ++ String.mk ['+'] ++ "= " ++ toString (3 : Nat)) = ("m[p] += 3") := rfl
  have e3 : ("p = (p + " ++ toString (3 : Nat) ++ ") % ") = ("p = (p + 3) % ") := rfl
  have e4 : ("m[" ++ "p" ++ "] " ++ String.mk ['+'] ++ "= " ++ toString (3 : Nat)) =
      ("m[p] += 3") := rfl
  have hs1 : splitLines ("m[p] += 1") = [("m[p] += 1")] := by decide
  have hs2 : splitLines ("m[p] += 3") = [("m[p] += 3")] := by decide
  have hsp1 : splitLines ("p = (p + 1) % " ++ toString ms) =
      [("p = (p + 1) % " ++ toString ms)] := splitLines_append_int _ (by decide) ms
  have hsp3 : splitLines ("p = (p + 3) % " ++ toString ms) =
      [("p = (p + 3) % " ++ toString ms)] := splitLines_append_int _ (by decide) ms
  refine ⟨?_, ?_, ?_⟩ <;>
    · unfold compileBuilder
      dsimp only
      rw [if_neg (by omega), if_neg (by omega), if_neg (by decide)]
      rw [htok, write_incipit_eq]
      simp +decide only [initState, runEvents, step, bind, Except.bind, on_instruction0,
        on_instruction1, on_instruction2, on_finish1, on_finish0, flush1, flush2,
        commit_pointer, get_relative_pointer_string, accumulated, CodeBuilder.append,
        CodeBuilder.start_block, CodeBuilder.end_block, appendedLines, indentText,
        Option.toList, List.mem_cons, List.mem_singleton, List.not_mem_nil,
        if_true, if_false, Bool.false_or, Bool.or_false, Bool.true_or, Bool.or_true,
        Bool.and_true, Bool.true_and, Bool.and_false, Bool.false_and,
        Int.toNat_zero, List.replicate, mk_nil_append, e1, e2, e3, e4, hs1, hs2, hsp1, hsp3,
        Nat.reduceAdd, List.map_id', List.map_cons, List.map_nil, List.append_assoc,
        List.cons_append, List.nil_append, List.singleton_append]

/-- Witness for C3 at the concrete configuration memory 5, indent 4. -/
theorem c3_fusion_statement_counts_witness :
    compileBuilder ("+++>>>") ⟨5, false, false, 4, false, 1⟩ =
      .ok (CodeBuilder.mk
        [("# -*- coding: UTF-8 -*-"), "m = [ 0 ] * " ++ toString (5 : Int), ("p = 0"),
          ("m[p] += 3"), "p = (p + 3) % " ++ toString (5 : Int)]
        0 4 ' ') :=
  (c3_fusion_statement_counts 5 4 false false (by decide) (by decide)).2.1

/-- The single fused statement `Compiler1._flush` emits for a pending run of
the accumulable instruction `op` with count `times`. -/
def fusedStatement (memory_size : Int) (op : Char) (times : Nat) : String :=
  if op = '+' || op = '-' then "m[p] " ++ String.mk [op] ++ "= " ++ toString times
  else if op = '<' then "p = (p - " ++ toString times ++ ") % " ++ toString memory_size
  else "p = (p + " ++ toString times ++ ") % " ++ toString memory_size

/-- With an accumulable pending run, `_flush` appends exactly its one fused
statement. -/
lemma flush1_eq (ms : Int) (st : Compiler1State) (b : CodeBuilder) (op : Char)
    (hop : st.operation = some op) (hacc : op ∈ accumulated) :
    flush1 ms st b = b.append (fusedStatement ms op st.times) := by
  obtain ⟨o, t⟩ := st
  cases hop
  simp only [accumulated, List.mem_cons, List.not_mem_nil, or_false] at hacc
  unfold flush1 fusedStatement
  rcases hacc with h | h | h | h <;> subst h <;> simp +decide [Option.toList]

/-- C5 (amended): at tier 1 a pending accumulable run is flushed as exactly
one fused statement precisely when the next instruction differs from the
pending one or is not accumulable, or when Finish occurs; a comment event
neither flushes nor changes the pending run (it only appends comment lines);
a pending run of count 0 (no pending operation) flushes to nothing. -/
theorem c5_tier1_flush_triggers (ms : Int) (cm dm : Bool) (st : Compiler1State)
    (b : CodeBuilder) (op : Char) (hop : st.operation = some op) (hacc : op ∈ accumulated) :
    (∀ p, step ms cm dm (.s1 st, b) (.instruction op p) =
        .ok (.s1 { operation := some op, times := st.times + 1 }, b)) ∧
    (∀ c p, c ∈ accumulated → c ≠ op →
        step ms cm dm (.s1 st, b) (.instruction c p) =
          .ok (.s1 { operation := some c, times := 1 },
            b.append (fusedStatement ms op st.times))) ∧
    (∀ c p, c ∉ accumulated →
        step ms cm dm (.s1 st, b) (.instruction c p) =
          (on_instruction0 ms (b.append (fusedStatement ms op st.times)) c).map
            (fun b' => (.s1 { operation := none, times := 0 }, b'))) ∧
    (∀ t i j, step ms cm dm (.s1 st, b) (.comment t i j) =
        .ok (.s1 st, if cm then on_comment0 b t else b)) ∧
    (step ms cm dm (.s1 st, b) .finish =
        (on_finish0 ms cm dm (b.append (fusedStatement ms op st.times))).map
          (fun b' => (.s1 st, b'))) ∧
    (∀ b' : CodeBuilder, flush1 ms { operation := none, times := 0 } b' = b') := by
  have hflush := flush1_eq ms st b op hop hacc
  refine ⟨?_, ?_, ?_, ?_, ?_, ?_⟩
  · intro p
    simp only [step, on_instruction1, if_pos hacc, hop, if_pos rfl, bind, Except.bind]
    obtain ⟨o, t⟩ := st
    cases hop
    rfl
  · intro c p hc hne
    have : ¬ (some c = st.operation) := by
      rw [hop]
      intro hh
      exact hne (by injection hh)
    simp only [step, on_instruction1, if_pos hc, if_neg this, bind, Except.bind, hflush]
  · intro c p hc
    simp only [step, on_instruction1, if_neg hc, bind, Except.bind, hflush]
    cases h : on_instruction0 ms (b.append (fusedStatement ms op st.times)) c <;>
      simp [Except.map]
  · intro t i j
    rfl
  · simp only [step, on_finish1, bind, Except.bind, hflush]
    cases h : on_finish0 ms cm dm (b.append (fusedStatement ms op st.times)) <;>
      simp [Except.map]
  · intro b'
    simp +decide [flush1]

/-- Witness for C5: a pending run of two `+` continued by a third `+` only
counts up, with no statement emitted. -/
theorem c5_tier1_flush_triggers_witness :
    step 5 false false (.s1 ⟨some '+', 2⟩, CodeBuilder.init 4 ' ') (.instruction '+' 0) =
      .ok (.s1 ⟨some '+', 3⟩, CodeBuilder.init 4 ' ') :=
  (c5_tier1_flush_triggers 5 false false ⟨some '+', 2⟩ (CodeBuilder.init 4 ' ') '+' rfl
    (by decide)).1 0

/-- A newline-free string. -/
abbrev noNL (s : String) : Prop := ∀ c ∈ s.data, c ≠ '\n'

/-- Appending preserves newline-freeness. -/
lemma noNL_append {a b : String} (ha : noNL a) (hb : noNL b) : noNL (a ++ b) := by
  intro c hc
  rw [String.data_append] at hc
  rcases List.mem_append.1 hc with h | h
  · exact ha c h
  · exact hb c h

/-- Rendered naturals are newline-free. -/
lemma noNL_toString_nat (n : Nat) : noNL (toString n) := natRepr_ne_newline n

/-- Rendered integers are newline-free. -/
lemma noNL_toString_int (i : Int) : noNL (toString i) := intToString_ne_newline i

/-- The relative pointer expression is newline-free. -/
lemma rel_noNL (pm : Int) : noNL (get_relative_pointer_string pm) := by
  unfold get_relative_pointer_string
  split
  · split <;>
      exact noNL_append (noNL_append (noNL_append (by decide) (by decide)) (by decide))
        (noNL_toString_nat _)
  · decide

/-- Leading whitespace padding is transparent to `dropWhile`. -/
lemma dropWhile_ws_replicate (n : Nat) (ch : Char) (h : isPyWhitespace ch = true)
    (l : List Char) :
    List.dropWhile isPyWhitespace (List.replicate n ch ++ l) =
      List.dropWhile isPyWhitespace l := by
  induction n with
  | zero => simp
  | succ n ih => simp [List.replicate_succ, List.dropWhile_cons, h, ih]

/-- A line's body: its characters after any leading whitespace. -/
def lineBody (l : String) : List Char := l.data.dropWhile isPyWhitespace

/-- Whether a line is a while-statement (its body starts with `while`). -/
def isWhileLine (l : String) : Bool := (lineBody l).take 5 == ("while").data

/-- Indentation padding does not change a line's body. -/
lemma lineBody_indent (b : CodeBuilder) (h : isPyWhitespace b.indent_char = true)
    (s : String) : lineBody (indentText b ++ s) = lineBody s := by
  unfold lineBody indentText
  rw [String.data_append]
  dsimp only
  exact dropWhile_ws_replicate _ _ h s.data

/-- Indentation padding does not change while-ness. -/
lemma isWhileLine_indent (b : CodeBuilder) (h : isPyWhitespace b.indent_char = true)
    (s : String) : isWhileLine (indentText b ++ s) = isWhileLine s := by
  unfold isWhileLine
  rw [lineBody_indent b h s]

/-- Indentation padding does not change comment-taggedness. -/
lemma isCommentTagged_indent (b : CodeBuilder) (h : isPyWhitespace b.indent_char = true)
    (s : String) : isCommentTagged (indentText b ++ s) = isCommentTagged s := by
  unfold isCommentTagged indentText
  rw [String.data_append]
  dsimp only
  rw [dropWhile_ws_replicate _ _ h s.data]

/-- A line whose first character is neither whitespace nor `w` is not a
while-statement. -/
lemma isWhileLine_false_of_head (s : String) (c : Char) (l : List Char)
    (hs : s.data = c :: l) (h1 : isPyWhitespace c = false) (h2 : c ≠ 'w') :
    isWhileLine s = false := by
  unfold isWhileLine lineBody
  rw [hs, List.dropWhile_cons, if_neg (by simp [h1])]
  apply beq_eq_false_iff_ne.mpr
  intro hcontra
  have ht : (c :: l).take 5 = c :: l.take 4 := rfl
  rw [ht, show ("while").data = 'w' :: ("hile").data from by decide] at hcontra
  injection hcontra with h3 _
  exact h2 h3

/-- Discharge the while-line obligation for a statement that is not one. -/
lemma whileFree (s : String) (h : isWhileLine s = false) :
    isWhileLine s = true → lineBody s = ("while m[p]:").data := by
  intro hh
  rw [h] at hh
  cases hh

/-- One-step unfolding of `splitListOn` on a cons cell. -/
lemma splitListOn_cons (sep c : Char) (rest : List Char) :
    splitListOn sep (c :: rest) =
      match splitListOn sep rest with
      | [] => [[c]]
      | g :: gs => if c = sep then [] :: g :: gs else (c :: g) :: gs := rfl

/-- Splitting never returns an empty list of groups. -/
lemma splitListOn_ne_nil (sep : Char) (l : List Char) : splitListOn sep l ≠ [] := by
  cases l with
  | nil => simp [splitListOn]
  | cons c rest =>
    rw [splitListOn_cons]
    cases h : splitListOn sep rest with
    | nil => simp
    | cons g gs =>
      dsimp only
      split <;> simp

/-- Splitting a list around its first separator occurrence. -/
lemma splitListOn_append_of (sep : Char) (l1 l2 : List Char) (h : sep ∉ l1) :
    splitListOn sep (l1 ++ sep :: l2) = l1 :: splitListOn sep l2 := by
  induction l1 with
  | nil =>
    show splitListOn sep (sep :: l2) = [] :: splitListOn sep l2
    rw [splitListOn_cons]
    cases hsp : splitListOn sep l2 with
    | nil => exact absurd hsp (splitListOn_ne_nil _ _)
    | cons g gs => simp
  | cons c rest ih =>
    have hc : c ≠ sep := fun hh => h (hh ▸ List.mem_cons_self c rest)
    show splitListOn sep (c :: (rest ++ sep :: l2)) = (c :: rest) :: splitListOn sep l2
    rw [splitListOn_cons, ih (fun hh => h (List.mem_cons_of_mem c hh))]
    simp [hc]

/-- No group returned by splitting contains the separator. -/
lemma splitListOn_pieces (sep : Char) (l : List Char) :
    ∀ g ∈ splitListOn sep l, sep ∉ g := by
  induction l with
  | nil =>
    intro g hg
    simp only [splitListOn, List.mem_singleton] at hg
    subst hg
    simp
  | cons c rest ih =>
    intro g hg
    rw [splitListOn_cons] at hg
    cases hsp : splitListOn sep rest with
    | nil => exact absurd hsp (splitListOn_ne_nil _ _)
    | cons g0 gs =>
      rw [hsp] at hg
      dsimp only at hg
      by_cases hc : c = sep
      · rw [if_pos hc] at hg
        rcases List.mem_cons.1 hg with h | h
        · subst h; simp
        · exact ih g (by rw [hsp]; exact h)
      · rw [if_neg hc] at hg
        rcases List.mem_cons.1 hg with h | h
        · subst h
          intro hmem
          rcases List.mem_cons.1 hmem with h' | h'
          · exact hc h'.symm
          · exact ih g0 (by rw [hsp]; exact List.mem_cons_self g0 gs) h'
        · exact ih g (by rw [hsp]; exact List.mem_cons_of_mem g0 h)

/-- Every line produced by `splitLines` is newline-free. -/
lemma splitLines_pieces_noNL (t : String) : ∀ line ∈ splitLines t, noNL line := by
  intro line hline
  unfold splitLines at hline
  obtain ⟨g, hg, rfl⟩ := List.mem_map.1 hline
  intro c hc he
  exact (splitListOn_pieces '\n' t.data g hg) (he ▸ hc)

/-- Stripping preserves newline-freeness. -/
lemma pyStrip_noNL (s : String) (h : noNL s) : noNL (pyStrip s) := by
  intro c hc
  unfold pyStrip at hc
  dsimp only at hc
  have h1 := List.mem_reverse.1 hc
  have h2 := (List.dropWhile_sublist _).subset h1
  have h3 := List.mem_reverse.1 h2
  exact h c ((List.dropWhile_sublist _).subset h3)

/-- Structure eta for strings. -/
lemma mk_data (s : String) : String.mk s.data = s := rfl

/-- String append is associative. -/
lemma str_append_assoc (a b c : String) : (a ++ b) ++ c = a ++ (b ++ c) := by
  apply String.ext
  simp [String.data_append, List.append_assoc]

/-- Splitting around the first separator when it follows three
separator-free chunks. -/
lemma splitListOn_three_append (sep : Char) (a b c r : List Char)
    (ha : sep ∉ a) (hb : sep ∉ b) (hc : sep ∉ c) :
    splitListOn sep (a ++ (b ++ (c ++ sep :: r))) = (a ++ (b ++ c)) :: splitListOn sep r := by
  have hre : a ++ (b ++ (c ++ sep :: r)) = (a ++ (b ++ c)) ++ sep :: r := by
    simp [List.append_assoc]
  rw [hre, splitListOn_append_of]
  intro hmem
  rcases List.mem_append.1 hmem with h | h
  · exact ha h
  rcases List.mem_append.1 h with h' | h'
  · exact hb h'
  · exact hc h'

/-- Peeling one newline-terminated line off the front of a split. -/
lemma splitLines_cons_line (a rest : String) (ha : noNL a) :
    splitLines (a ++ ("\n" ++ rest)) = a :: splitLines rest := by
  unfold splitLines
  rw [String.data_append, String.data_append,
    show ("\n").data = ['\n'] from rfl, List.singleton_append,
    splitListOn_append_of _ _ _ (fun hmem => ha '\n' hmem rfl)]
  simp [mk_data]

/-- A single newline-terminated line splits into the line and one empty
line. -/
lemma splitLines_last (a : String) (ha : noNL a) : splitLines (a ++ ("\n")) = [a, ("")] := by
  unfold splitLines
  rw [String.data_append, show ("\n").data = '\n' :: [] from rfl,
    splitListOn_append_of _ _ _ (fun hmem => ha '\n' hmem rfl)]
  simp [mk_data, splitListOn]

/-- The dump epilogue text renders as its seven statement lines plus a final
empty line. -/
lemma splitLines_dump (ms : Int) :
    splitLines (dump_memory_text ms) =
      [("print \x27\\n~~~ Program Terminated ~~~\x27"), ("print \x27Pointer:\x27, p"),
        ("print \x27Memory:\x27"),
        "m += [ 0 ] * (16 - " ++ toString ms ++ " % 16)",
        ("dump = (\x27\x7b:4d\x7d\x27 * 16).format"),
        "for i in range(0, " ++ toString ms ++ ", 16):",
        ("    print \x27\x7b:7d\x7d | \x7b\x7d\x27.format(i, dump(*m[i:i + 16]))"), ("")] := by
  have hnl4 : noNL ("m += [ 0 ] * (16 - " ++ toString ms ++ " % 16)") :=
    noNL_append (noNL_append (by decide) (noNL_toString_int ms)) (by decide)
  have hnl6 : noNL ("for i in range(0, " ++ toString ms ++ ", 16):") :=
    noNL_append (noNL_append (by decide) (noNL_toString_int ms)) (by decide)
  have hform : dump_memory_text ms =
      ("print \x27\\n~~~ Program Terminated ~~~\x27") ++ (("\n") ++
        (("print \x27Pointer:\x27, p") ++ (("\n") ++
          (("print \x27Memory:\x27") ++ (("\n") ++
            (("m += [ 0 ] * (16 - " ++ toString ms ++ " % 16)") ++ (("\n") ++
              (("dump = (\x27\x7b:4d\x7d\x27 * 16).format") ++ (("\n") ++
                (("for i in range(0, " ++ toString ms ++ ", 16):") ++ (("\n") ++
                  (("    print \x27\x7b:7d\x7d | \x7b\x7d\x27.format(i, dump(*m[i:i + 16]))") ++
                    ("\n"))))))))))))) := by
    apply String.ext
    simp [dump_memory_text, String.data_append, List.append_assoc]
  rw [hform, splitLines_cons_line _ _ (by decide), splitLines_cons_line _ _ (by decide),
    splitLines_cons_line _ _ (by decide), splitLines_cons_line _ _ hnl4,
    splitLines_cons_line _ _ (by decide), splitLines_cons_line _ _ hnl6,
    splitLines_last _ (by decide)]

/-- All while-statement lines buffered so far test the absolute pointer. -/
def goodLines (b : CodeBuilder) : Prop :=
  ∀ l ∈ b.code, isWhileLine l = true → lineBody l = ("while m[p]:").data

/-- Appending a statement all of whose lines are acceptable preserves the
while-line invariant. -/
lemma goodLines_append_pieces (b : CodeBuilder) (stmt : String)
    (hws : isPyWhitespace b.indent_char = true) (hg : goodLines b)
    (hp : ∀ piece ∈ splitLines stmt, isWhileLine piece = true →
      lineBody piece = ("while m[p]:").data) :
    goodLines (b.append stmt) := by
  intro l hl
  unfold CodeBuilder.append appendedLines at hl
  dsimp only at hl
  rcases List.mem_append.1 hl with h | h
  · exact hg l h
  · obtain ⟨piece, hpiece, rfl⟩ := List.mem_map.1 h
    rw [isWhileLine_indent b hws, lineBody_indent b hws]
    exact hp piece hpiece

/-- Appending one acceptable newline-free statement preserves the
invariant. -/
lemma goodLines_append_one (b : CodeBuilder) (stmt : String)
    (hws : isPyWhitespace b.indent_char = true) (hg : goodLines b) (hnl : noNL stmt)
    (h1 : isWhileLine stmt = true → lineBody stmt = ("while m[p]:").data) :
    goodLines (b.append stmt) := by
  apply goodLines_append_pieces b stmt hws hg
  rw [splitLines_single stmt hnl]
  intro piece hp
  rw [List.mem_singleton] at hp
  subst hp
  exact h1

/-- A statement starting with a harmless character is never a while-line,
whatever follows. -/
lemma whileFree_append (pre rest : String) (c : Char) (l : List Char)
    (hpre : pre.data = c :: l) (h1 : isPyWhitespace c = false) (h2 : c ≠ 'w') :
    isWhileLine (pre ++ rest) = true → lineBody (pre ++ rest) = ("while m[p]:").data := by
  apply whileFree
  apply isWhileLine_false_of_head _ c (l ++ rest.data)
  · rw [String.data_append, hpre]
    rfl
  · exact h1
  · exact h2

/-- The dump epilogue contains no while-line. -/
lemma dump_pieces_ok (ms : Int) :
    ∀ piece ∈ splitLines (dump_memory_text ms), isWhileLine piece = true →
      lineBody piece = ("while m[p]:").data := by
  rw [splitLines_dump]
  intro piece hp
  simp only [List.mem_cons, List.not_mem_nil, or_false] at hp
  rcases hp with rfl | rfl | rfl | rfl | rfl | rfl | rfl | rfl
  · exact whileFree _ (by decide)
  · exact whileFree _ (by decide)
  · exact whileFree _ (by decide)
  · rw [str_append_assoc]
    exact whileFree_append _ _ 'm' ((" += [ 0 ] * (16 - ").data) (by decide) (by decide)
      (by decide)
  · exact whileFree _ (by decide)
  · rw [str_append_assoc]
    exact whileFree_append _ _ 'f' (("or i in range(0, ").data) (by decide) (by decide)
      (by decide)
  · exact whileFree _ (by decide)
  · exact whileFree _ (by decide)

/-- `start_block` keeps the buffered lines, hence the invariant. -/
lemma goodLines_start_block (b : CodeBuilder) (hg : goodLines b) :
    goodLines b.start_block := hg

/-- Committing the pending offset resets it to zero. -/
lemma commit_pointer_pm (ms : Int) (st : Compiler2State) (b : CodeBuilder) :
    (commit_pointer ms st b).1.pointer_move = 0 := by
  unfold commit_pointer
  split
  · rfl
  · rename_i h
    exact not_not.mp h

/-- Committing the pending offset preserves the invariant and the
indentation configuration. -/
lemma commit_pointer_goodLines (ms : Int) (st : Compiler2State) (b : CodeBuilder)
    (hws : isPyWhitespace b.indent_char = true) (hg : goodLines b) :
    goodLines (commit_pointer ms st b).2 ∧
      (commit_pointer ms st b).2.indent_char = b.indent_char ∧
      (commit_pointer ms st b).2.indent = b.indent := by
  unfold commit_pointer
  split
  · refine ⟨?_, rfl, rfl⟩
    apply goodLines_append_one _ _ hws hg
    · exact noNL_append (noNL_append (noNL_append (by decide) (rel_noNL _)) (by decide))
        (noNL_toString_int ms)
    · rw [str_append_assoc, str_append_assoc]
      refine whileFree_append _ _ 'p' ((" = (").data) ?_ ?_ ?_ <;> decide
  · exact ⟨hg, rfl, rfl⟩

/-- Flushing a tier-1 run preserves the invariant and the indentation
configuration. -/
lemma flush1_goodLines (ms : Int) (st : Compiler1State) (b : CodeBuilder)
    (hws : isPyWhitespace b.indent_char = true) (hg : goodLines b) :
    goodLines (flush1 ms st b) ∧ (flush1 ms st b).indent_char = b.indent_char ∧
      (flush1 ms st b).indent = b.indent := by
  unfold flush1
  split_ifs with h1 h2 h3
  · refine ⟨?_, rfl, rfl⟩
    simp only [Bool.or_eq_true, decide_eq_true_eq] at h1
    apply goodLines_append_one _ _ hws hg
    · rcases h1 with h | h <;> rw [h] <;>
        exact noNL_append (noNL_append (noNL_append (by decide) (by decide)) (by decide))
          (noNL_toString_nat _)
    · rcases h1 with h | h <;> rw [h] <;>
        · rw [str_append_assoc, str_append_assoc]
          refine whileFree_append _ _ 'm' (("[p] ").data) ?_ ?_ ?_ <;> decide
  · refine ⟨?_, rfl, rfl⟩
    apply goodLines_append_one _ _ hws hg
    · exact noNL_append (noNL_append (noNL_append (by decide) (noNL_toString_nat _))
        (by decide)) (noNL_toString_int ms)
    · rw [str_append_assoc, str_append_assoc]
      refine whileFree_append _ _ 'p' ((" = (p - ").data) ?_ ?_ ?_ <;> decide
  · refine ⟨?_, rfl, rfl⟩
    apply goodLines_append_one _ _ hws hg
    · exact noNL_append (noNL_append (noNL_append (by decide) (noNL_toString_nat _))
        (by decide)) (noNL_toString_int ms)
    · rw [str_append_assoc, str_append_assoc]
      refine whileFree_append _ _ 'p' ((" = (p + ").data) ?_ ?_ ?_ <;> decide
  · exact ⟨hg, rfl, rfl⟩

/-- Flushing a tier-2 run preserves the invariant and the indentation
configuration. -/
lemma flush2_goodLines (st : Compiler2State) (b : CodeBuilder)
    (hws : isPyWhitespace b.indent_char = true) (hg : goodLines b) :
    goodLines (flush2 st b).2 ∧ (flush2 st b).2.indent_char = b.indent_char ∧
      (flush2 st b).2.indent = b.indent := by
  unfold flush2
  split_ifs with h1 h2 h3
  · refine ⟨?_, rfl, rfl⟩
    simp only [Bool.or_eq_true, decide_eq_true_eq] at h1
    apply goodLines_append_one _ _ hws hg
    · rcases h1 with h | h <;> rw [h] <;>
        exact noNL_append (noNL_append (noNL_append (noNL_append (noNL_append (by decide)
          (rel_noNL _)) (by decide)) (by decide)) (by decide)) (noNL_toString_nat _)
    · rcases h1 with h | h <;> rw [h] <;>
        · rw [str_append_assoc, str_append_assoc, str_append_assoc, str_append_assoc]
          refine whileFree_append _ _ 'm' (("[").data) ?_ ?_ ?_ <;> decide
  · exact ⟨hg, rfl, rfl⟩
  · exact ⟨hg, rfl, rfl⟩
  · exact ⟨hg, rfl, rfl⟩

/-- Comment pass-through preserves the invariant and the indentation
configuration. -/
lemma foldl_comment_good (lines : List String) :
    ∀ b : CodeBuilder, isPyWhitespace b.indent_char = true → goodLines b →
      (∀ line ∈ lines, noNL line) →
      goodLines (lines.foldl (fun b line =>
          let c := pyStrip line
          if c ≠ ("") then b.append ("# " ++ c) else b) b) ∧
        (lines.foldl (fun b line =>
          let c := pyStrip line
          if c ≠ ("") then b.append ("# " ++ c) else b) b).indent_char = b.indent_char ∧
        (lines.foldl (fun b line =>
          let c := pyStrip line
          if c ≠ ("") then b.append ("# " ++ c) else b) b).indent = b.indent := by
  induction lines with
  | nil =>
    intro b _ hg _
    exact ⟨hg, rfl, rfl⟩
  | cons line rest ih =>
    intro b hws hg hnl
    rw [List.foldl_cons]
    have hgood1 : goodLines (if pyStrip line ≠ ("") then b.append ("# " ++ pyStrip line)
        else b) := by
      split
      · apply goodLines_append_one _ _ hws hg
        · exact noNL_append (by decide) (pyStrip_noNL line (hnl line (List.mem_cons_self _ _)))
        · refine whileFree_append _ _ '#' ((" ").data) ?_ ?_ ?_ <;> decide
      · exact hg
    have hchar1 : (if pyStrip line ≠ ("") then b.append ("# " ++ pyStrip line)
        else b).indent_char = b.indent_char := by split <;> rfl
    have hind1 : (if pyStrip line ≠ ("") then b.append ("# " ++ pyStrip line)
        else b).indent = b.indent := by split <;> rfl
    obtain ⟨h1, h2, h3⟩ := ih (if pyStrip line ≠ ("") then b.append ("# " ++ pyStrip line)
        else b) (by rw [hchar1]; exact hws) hgood1
      (fun l hl => hnl l (List.mem_cons_of_mem _ hl))
    exact ⟨h1, h2.trans hchar1, h3.trans hind1⟩

/-- `on_comment` preserves the invariant and the indentation
configuration. -/
lemma on_comment0_goodLines (b : CodeBuilder) (t : String)
    (hws : isPyWhitespace b.indent_char = true) (hg : goodLines b) :
    goodLines (on_comment0 b t) ∧ (on_comment0 b t).indent_char = b.indent_char ∧
      (on_comment0 b t).indent = b.indent := by
  unfold on_comment0
  exact foldl_comment_good _ b hws hg (splitLines_pieces_noNL t)

/-- The dump epilogue preserves the invariant and the indentation
character. -/
lemma write_dump_memory_goodLines (ms : Int) (cm : Bool) (b : CodeBuilder)
    (hws : isPyWhitespace b.indent_char = true) (hg : goodLines b) :
    goodLines (write_dump_memory ms cm b) ∧
      (write_dump_memory ms cm b).indent_char = b.indent_char := by
  unfold write_dump_memory
  have hchar : (if cm then b.append ("# dump the memory") else b).indent_char =
      b.indent_char := by split <;> rfl
  have hgood : goodLines (if cm then b.append ("# dump the memory") else b) := by
    split
    · apply goodLines_append_one _ _ hws hg (by decide)
      exact whileFree _ (by decide)
    · exact hg
  refine ⟨?_, hchar⟩
  apply goodLines_append_pieces _ _ (by rw [hchar]; exact hws) hgood
  exact dump_pieces_ok ms

/-- `Compiler0.on_finish` preserves the invariant and the indentation
character. -/
lemma on_finish0_goodLines (ms : Int) (cm dm : Bool) (b b' : CodeBuilder)
    (h : on_finish0 ms cm dm b = .ok b')
    (hws : isPyWhitespace b.indent_char = true) (hg : goodLines b) :
    goodLines b' ∧ b'.indent_char = b.indent_char := by
  unfold on_finish0 at h
  split_ifs at h with h1 h2
  · cases h
    exact write_dump_memory_goodLines ms cm b hws hg
  · cases h
    exact ⟨hg, rfl⟩

/-- `Compiler0.on_instruction` preserves the invariant and the indentation
character. -/
lemma on_instruction0_goodLines (ms : Int) (b : CodeBuilder) (c : Char) (b' : CodeBuilder)
    (h : on_instruction0 ms b c = .ok b')
    (hws : isPyWhitespace b.indent_char = true) (hg : goodLines b) :
    goodLines b' ∧ b'.indent_char = b.indent_char := by
  unfold on_instruction0 at h
  split_ifs at h with h1 h2 h3 h4 h5 h6 h7
  · cases h
    refine ⟨?_, rfl⟩
    simp only [Bool.or_eq_true, decide_eq_true_eq] at h1
    apply goodLines_append_one _ _ hws hg
    · rcases h1 with h | h <;> rw [h] <;> decide
    · rcases h1 with h | h <;> rw [h] <;> exact whileFree _ (by decide)
  · cases h
    refine ⟨?_, rfl⟩
    apply goodLines_append_one _ _ hws hg
    · exact noNL_append (by decide) (noNL_toString_int ms)
    · refine whileFree_append _ _ 'p' ((" = (p - 1) % ").data) ?_ ?_ ?_ <;> decide
  · cases h
    refine ⟨?_, rfl⟩
    apply goodLines_append_one _ _ hws hg
    · exact noNL_append (by decide) (noNL_toString_int ms)
    · refine whileFree_append _ _ 'p' ((" = (p + 1) % ").data) ?_ ?_ ?_ <;> decide
  · cases h
    refine ⟨?_, rfl⟩
    apply goodLines_append_one _ _ hws hg (by decide)
    exact whileFree _ (by decide)
  · cases h
    refine ⟨?_, rfl⟩
    apply goodLines_append_one _ _ hws hg (by decide)
    exact whileFree _ (by decide)
  · cases h
    refine ⟨?_, rfl⟩
    apply goodLines_start_block
    apply goodLines_append_one _ _ hws hg (by decide)
    decide
  · unfold CodeBuilder.end_block at h
    split_ifs at h
    cases h
    exact ⟨hg, rfl⟩
  · cases h
    exact ⟨hg, rfl⟩

/-- `Compiler1.on_instruction` preserves the invariant and the indentation
character. -/
lemma on_instruction1_goodLines (ms : Int) (st : Compiler1State) (b : CodeBuilder)
    (c : Char) (r : Compiler1State × CodeBuilder)
    (h : on_instruction1 ms st b c = .ok r)
    (hws : isPyWhitespace b.indent_char = true) (hg : goodLines b) :
    goodLines r.2 ∧ r.2.indent_char = b.indent_char := by
  obtain ⟨hf, hfc, _⟩ := flush1_goodLines ms st b hws hg
  unfold on_instruction1 at h
  split_ifs at h with h1 h2
  · cases h
    exact ⟨hg, rfl⟩
  · cases h
    exact ⟨hf, hfc⟩
  · simp only [bind, Except.bind] at h
    split at h
    · cases h
    · rename_i v heq
      cases h
      obtain ⟨hv, hvc⟩ := on_instruction0_goodLines ms _ c v heq (by rw [hfc]; exact hws) hf
      exact ⟨hv, hvc.trans hfc⟩

/-- `Compiler2.on_instruction` preserves the invariant and the indentation
character. -/
lemma on_instruction2_goodLines (ms : Int) (st : Compiler2State) (b : CodeBuilder)
    (c : Char) (r : Compiler2State × CodeBuilder)
    (h : on_instruction2 ms st b c = .ok r)
    (hws : isPyWhitespace b.indent_char = true) (hg : goodLines b) :
    goodLines r.2 ∧ r.2.indent_char = b.indent_char := by
  obtain ⟨hf, hfc, _⟩ := flush2_goodLines st b hws hg
  have hfws : isPyWhitespace (flush2 st b).2.indent_char = true := by rw [hfc]; exact hws
  unfold on_instruction2 at h
  split_ifs at h with h1 h2 h3 h4 h5
  · cases h
    exact ⟨hg, rfl⟩
  · cases h
    refine ⟨?_, hfc⟩
    apply goodLines_append_one _ _ hfws hf
    · exact noNL_append (noNL_append (by decide) (rel_noNL _)) (by decide)
    · rw [str_append_assoc]
      refine whileFree_append _ _ 'm' (("[").data) ?_ ?_ ?_ <;> decide
  · cases h
    refine ⟨?_, hfc⟩
    apply goodLines_append_one _ _ hfws hf
    · exact noNL_append (noNL_append (by decide) (rel_noNL _)) (by decide)
    · rw [str_append_assoc]
      refine whileFree_append _ _ 'p' (("rint m[").data) ?_ ?_ ?_ <;> decide
  · cases h
    obtain ⟨hcg, hcc, _⟩ := commit_pointer_goodLines ms
      { (flush2 st b).1 with times := 1, operation := some c } (flush2 st b).2 hfws hf
    refine ⟨?_, hcc.trans hfc⟩
    apply goodLines_start_block
    apply goodLines_append_one _ _ (by rw [hcc]; exact hfws) hcg
    · rw [commit_pointer_pm]
      decide
    · rw [commit_pointer_pm]
      decide
  · simp only [bind, Except.bind] at h
    split at h
    · cases h
    · rename_i v heq
      cases h
      obtain ⟨hcg, hcc, _⟩ := commit_pointer_goodLines ms
        { (flush2 st b).1 with times := 1, operation := some c } (flush2 st b).2 hfws hf
      unfold CodeBuilder.end_block at heq
      split_ifs at heq
      cases heq
      exact ⟨hcg, hcc.trans hfc⟩
  · cases h
    exact ⟨hf, hfc⟩

/-- One dispatch step preserves the invariant and the indentation
character. -/
lemma step_goodLines (ms : Int) (cm dm : Bool) (s : CompilerState) (b : CodeBuilder)
    (e : Event) (s' : CompilerState) (b' : CodeBuilder)
    (h : step ms cm dm (s, b) e = .ok (s', b'))
    (hws : isPyWhitespace b.indent_char = true) (hg : goodLines b) :
    goodLines b' ∧ b'.indent_char = b.indent_char := by
  cases s with
  | s0 =>
    cases e with
    | instruction c p =>
      simp only [step, bind, Except.bind] at h
      cases heq : on_instruction0 ms b c with
      | error err => rw [heq] at h; cases h
      | ok v =>
        rw [heq] at h
        cases h
        exact on_instruction0_goodLines ms b c _ heq hws hg
    | comment t i j =>
      simp only [step] at h
      cases h
      split
      · obtain ⟨hcg, hcc, _⟩ := on_comment0_goodLines b t hws hg
        exact ⟨hcg, hcc⟩
      · exact ⟨hg, rfl⟩
    | finish =>
      simp only [step, bind, Except.bind] at h
      cases heq : on_finish0 ms cm dm b with
      | error err => rw [heq] at h; cases h
      | ok v =>
        rw [heq] at h
        cases h
        exact on_finish0_goodLines ms cm dm b _ heq hws hg
  | s1 st =>
    cases e with
    | instruction c p =>
      simp only [step, bind, Except.bind] at h
      cases heq : on_instruction1 ms st b c with
      | error err => rw [heq] at h; cases h
      | ok v =>
        rw [heq] at h
        cases h
        exact on_instruction1_goodLines ms st b c _ heq hws hg
    | comment t i j =>
      simp only [step] at h
      cases h
      split
      · obtain ⟨hcg, hcc, _⟩ := on_comment0_goodLines b t hws hg
        exact ⟨hcg, hcc⟩
      · exact ⟨hg, rfl⟩
    | finish =>
      simp only [step, bind, Except.bind] at h
      cases heq : on_finish1 ms cm dm st b with
      | error err => rw [heq] at h; cases h
      | ok v =>
        rw [heq] at h
        cases h
        unfold on_finish1 at heq
        obtain ⟨hf, hfc, _⟩ := flush1_goodLines ms st b hws hg
        obtain ⟨hv, hvc⟩ := on_finish0_goodLines ms cm dm _ _ heq (by rw [hfc]; exact hws) hf
        exact ⟨hv, hvc.trans hfc⟩
  | s2 st =>
    cases e with
    | instruction c p =>
      simp only [step, bind, Except.bind] at h
      cases heq : on_instruction2 ms st b c with
      | error err => rw [heq] at h; cases h
      | ok v =>
        rw [heq] at h
        cases h
        exact on_instruction2_goodLines ms st b c _ heq hws hg
    | comment t i j =>
      simp only [step] at h
      cases h
      split
      · obtain ⟨hcg, hcc, _⟩ := on_comment0_goodLines b t hws hg
        exact ⟨hcg, hcc⟩
      · exact ⟨hg, rfl⟩
    | finish =>
      simp only [step, bind, Except.bind] at h
      cases heq : on_finish0 ms cm dm b with
      | error err => rw [heq] at h; cases h
      | ok v =>
        rw [heq] at h
        cases h
        exact on_finish0_goodLines ms cm dm b _ heq hws hg

/-- The whole event run preserves the invariant. -/
lemma runEvents_goodLines (ms : Int) (cm dm : Bool) :
    ∀ (evs : List Event) (s : CompilerState) (b : CodeBuilder)
      (s' : CompilerState) (b' : CodeBuilder),
      runEvents ms cm dm (s, b) evs = .ok (s', b') →
      isPyWhitespace b.indent_char = true → goodLines b → goodLines b' := by
  intro evs
  induction evs with
  | nil =>
    intro s b s' b' h hws hg
    cases h
    exact hg
  | cons e evs ih =>
    intro s b s' b' h hws hg
    simp only [runEvents, bind, Except.bind] at h
    split at h
    · cases h
    · rename_i sb1 heq
      obtain ⟨hg1, hc1⟩ := step_goodLines ms cm dm s b e sb1.1 sb1.2 (by rw [← heq]) hws hg
      exact ih sb1.1 sb1.2 s' b' h (by rw [hc1]; exact hws) hg1

/-- The preamble builder keeps its indentation character. -/
lemma incipit_ws (ms ind : Int) (ch : Char) (h : isPyWhitespace ch = true) :
    isPyWhitespace (write_incipit ms (CodeBuilder.init ind ch)).indent_char = true := h

/-- The preamble contains no while-line. -/
lemma incipit_goodLines (ms ind : Int) (ch : Char) :
    goodLines (write_incipit ms (CodeBuilder.init ind ch)) := by
  rw [write_incipit_eq]
  intro l hl
  simp only [List.mem_cons, List.not_mem_nil, or_false] at hl
  rcases hl with rfl | rfl | rfl
  · decide
  · refine whileFree_append _ _ 'm' ((" = [ 0 ] * ").data) ?_ ?_ ?_ <;> decide
  · decide

/-- C2 (amended): in tier 2 the pending symbolic pointer offset is committed
(converted into a pointer reassignment statement, wraparound applied modulo
`memory_size`, exactly when the offset is nonzero) and reset to zero
immediately before every emitted loop-open statement and immediately before
every loop-close; consequently every while-statement in the generated code
tests the absolute pointer, reading `while m[p]:`.  There is no commit at
Finish — the finish dispatch leaves the tier-2 state untouched — so a
compilation may end with a nonzero uncommitted pending offset. -/
theorem c2_commit_before_loops (code : String) (cfg : Config)
    (h2 : cfg.optimizations = 2) :
    (∀ (st : Compiler2State) (b : CodeBuilder) (r : Compiler2State × CodeBuilder),
      on_instruction2 cfg.memory st b '[' = .ok r → r.1.pointer_move = 0) ∧
    (∀ (st : Compiler2State) (b : CodeBuilder) (r : Compiler2State × CodeBuilder),
      on_instruction2 cfg.memory st b ']' = .ok r → r.1.pointer_move = 0) ∧
    (∀ (st : Compiler2State) (b : CodeBuilder),
      step cfg.memory cfg.comments cfg.dump (.s2 st, b) .finish =
        (on_finish0 cfg.memory cfg.comments cfg.dump b).map (fun b' => (.s2 st, b'))) ∧
    (∀ b : CodeBuilder, compileBuilder code cfg = .ok b →
      ∀ l ∈ b.code, isWhileLine l = true → lineBody l = ("while m[p]:").data) := by
  refine ⟨?_, ?_, ?_, ?_⟩
  · intro st b r h
    simp +decide only [on_instruction2, Bool.false_and, false_and, Bool.and_eq_true,
      if_false, if_true, Bool.false_eq_true, ite_false, ite_true] at h
    cases h
    exact commit_pointer_pm _ _ _
  · intro st b r h
    simp +decide only [on_instruction2, Bool.false_and, false_and, Bool.and_eq_true,
      if_false, if_true, Bool.false_eq_true, ite_false, ite_true, bind, Except.bind] at h
    split at h
    · cases h
    · cases h
      exact commit_pointer_pm _ _ _
  · intro st b
    simp only [step, bind, Except.bind]
    cases hf : on_finish0 cfg.memory cfg.comments cfg.dump b <;> simp [Except.map]
  · intro b hb
    unfold compileBuilder at hb
    split_ifs at hb
    all_goals try cases hb
    all_goals
      (dsimp only at hb
       split at hb
       · rename_i sb heq
         cases hb
         intro l hl hwl
         exact runEvents_goodLines _ _ _ _ _ _ _ _ heq
           (incipit_ws cfg.memory cfg.indent _ (by first | decide | (split <;> decide)))
           (incipit_goodLines _ _ _) l hl hwl
       · cases hb)

/-- Witness for C2 at a concrete loop-open event arriving with a pending
offset of two moves: the offset is committed and reset to zero. -/
theorem c2_commit_before_loops_witness :
    on_instruction2 5 ⟨some '>', 2, 0⟩ (CodeBuilder.init 4 ' ') '[' =
        .ok (⟨some '[', 1, 0⟩,
          (((CodeBuilder.init 4 ' ').append ("p = (p + 2) % 5")).append
            ("while m[p]:")).start_block) ∧
      (Compiler2State.mk (some '[') 1 0).pointer_move = 0 :=
  ⟨by decide,
    (c2_commit_before_loops ("") ⟨5, false, false, 4, false, 2⟩ rfl).1
      ⟨some '>', 2, 0⟩ (CodeBuilder.init 4 ' ')
      (⟨some '[', 1, 0⟩,
        (((CodeBuilder.init 4 ' ').append ("p = (p + 2) % 5")).append
          ("while m[p]:")).start_block)
      (by decide)⟩

/-- Bracket-depth scan of the source text: `none` marks a loop-close
arriving at depth zero, otherwise the final depth (opens minus closes) is
returned.  This is the claim's notion of bracket balance: a program is
balanced exactly when the scan returns `some 0`. -/
def scanDepth : List Char → Int → Option Int
  | [], d => some d
  | c :: rest, d =>
    if c = '[' then scanDepth rest (d + 1)
    else if c = ']' then (if d = 0 then none else scanDepth rest (d - 1))
    else scanDepth rest d

/-- The same scan over tokenizer events. -/
def scanDepthE : List Event → Int → Option Int
  | [], d => some d
  | .instruction c _ :: rest, d =>
    if c = '[' then scanDepthE rest (d + 1)
    else if c = ']' then (if d = 0 then none else scanDepthE rest (d - 1))
    else scanDepthE rest d
  | .comment _ _ _ :: rest, d => scanDepthE rest d
  | .finish :: rest, d => scanDepthE rest d

/-- Flushing a tier-1 run does not touch the indentation state. -/
lemma flush1_fields (ms : Int) (st : Compiler1State) (b : CodeBuilder) :
    (flush1 ms st b).indent = b.indent ∧ (flush1 ms st b).indent_size = b.indent_size ∧
      (flush1 ms st b).indent_char = b.indent_char := by
  unfold flush1
  split_ifs <;> exact ⟨rfl, rfl, rfl⟩

/-- Flushing a tier-2 run does not touch the indentation state. -/
lemma flush2_fields (st : Compiler2State) (b : CodeBuilder) :
    (flush2 st b).2.indent = b.indent ∧ (flush2 st b).2.indent_size = b.indent_size ∧
      (flush2 st b).2.indent_char = b.indent_char := by
  unfold flush2
  split_ifs <;> exact ⟨rfl, rfl, rfl⟩

/-- Committing the pending offset does not touch the indentation state. -/
lemma commit_pointer_fields (ms : Int) (st : Compiler2State) (b : CodeBuilder) :
    (commit_pointer ms st b).2.indent = b.indent ∧
      (commit_pointer ms st b).2.indent_size = b.indent_size ∧
      (commit_pointer ms st b).2.indent_char = b.indent_char := by
  unfold commit_pointer
  split <;> exact ⟨rfl, rfl, rfl⟩

/-- Comment pass-through does not touch the indentation state. -/
lemma foldl_comment_fields (lines : List String) :
    ∀ b : CodeBuilder,
      (lines.foldl (fun b line =>
        let c := pyStrip line
        if c ≠ ("") then b.append ("# " ++ c) else b) b).indent = b.indent ∧
      (lines.foldl (fun b line =>
        let c := pyStrip line
        if c ≠ ("") then b.append ("# " ++ c) else b) b).indent_size = b.indent_size ∧
      (lines.foldl (fun b line =>
        let c := pyStrip line
        if c ≠ ("") then b.append ("# " ++ c) else b) b).indent_char = b.indent_char := by
  induction lines with
  | nil => intro b; exact ⟨rfl, rfl, rfl⟩
  | cons line rest ih =>
    intro b
    rw [List.foldl_cons]
    obtain ⟨h1, h2, h3⟩ := ih (if pyStrip line ≠ ("") then b.append ("# " ++ pyStrip line)
      else b)
    have e1 : (if pyStrip line ≠ ("") then b.append ("# " ++ pyStrip line) else b).indent =
        b.indent := by split <;> rfl
    have e2 : (if pyStrip line ≠ ("") then b.append ("# " ++ pyStrip line)
        else b).indent_size = b.indent_size := by split <;> rfl
    have e3 : (if pyStrip line ≠ ("") then b.append ("# " ++ pyStrip line)
        else b).indent_char = b.indent_char := by split <;> rfl
    exact ⟨h1.trans e1, h2.trans e2, h3.trans e3⟩

/-- `on_comment` does not touch the indentation state. -/
lemma on_comment0_fields (b : CodeBuilder) (t : String) :
    (on_comment0 b t).indent = b.indent ∧ (on_comment0 b t).indent_size = b.indent_size ∧
      (on_comment0 b t).indent_char = b.indent_char := by
  unfold on_comment0
  exact foldl_comment_fields _ b

/-- A non-bracket instruction always succeeds at tier 0 and keeps the
indentation state. -/
lemma on_instruction0_other (ms : Int) (b : CodeBuilder) (c : Char)
    (hc1 : c ≠ '[') (hc2 : c ≠ ']') :
    ∃ b', on_instruction0 ms b c = .ok b' ∧ b'.indent = b.indent ∧
      b'.indent_size = b.indent_size ∧ b'.indent_char = b.indent_char := by
  unfold on_instruction0
  split_ifs <;>
    first
      | exact ⟨_, rfl, rfl, rfl, rfl⟩
      | exact ⟨b, rfl, rfl, rfl, rfl⟩
      | simp_all

/-- A non-bracket instruction event always succeeds and keeps the
indentation state, at every tier. -/
lemma step_instr_other (ms : Int) (cm dm : Bool) (s : CompilerState) (b : CodeBuilder)
    (c : Char) (p : Nat) (hc1 : c ≠ '[') (hc2 : c ≠ ']') :
    ∃ s' b', step ms cm dm (s, b) (.instruction c p) = .ok (s', b') ∧
      b'.indent = b.indent ∧ b'.indent_size = b.indent_size ∧
      b'.indent_char = b.indent_char := by
  cases s with
  | s0 =>
    obtain ⟨b', hb', h1, h2, h3⟩ := on_instruction0_other ms b c hc1 hc2
    exact ⟨.s0, b', by simp [step, bind, Except.bind, hb'], h1, h2, h3⟩
  | s1 st =>
    obtain ⟨f1, f2, f3⟩ := flush1_fields ms st b
    by_cases h1 : c ∈ accumulated
    · by_cases h2 : some c = st.operation
      · refine ⟨.s1 { st with times := st.times + 1 }, b, ?_, rfl, rfl, rfl⟩
        simp [step, bind, Except.bind, on_instruction1, h1, h2]
      · refine ⟨.s1 { operation := some c, times := 1 }, flush1 ms st b, ?_, f1, f2, f3⟩
        simp [step, bind, Except.bind, on_instruction1, h1, h2]
    · obtain ⟨b', hb', g1, g2, g3⟩ := on_instruction0_other ms (flush1 ms st b) c hc1 hc2
      refine ⟨.s1 { operation := none, times := 0 }, b', ?_, g1.trans f1, g2.trans f2,
        g3.trans f3⟩
      simp [step, bind, Except.bind, on_instruction1, h1, hb']
  | s2 st =>
    obtain ⟨f1, f2, f3⟩ := flush2_fields st b
    by_cases hcond : (decide (c ∈ accumulated) && decide (some c = st.operation)) = true
    · refine ⟨.s2 { st with times := st.times + 1 }, b, ?_, rfl, rfl, rfl⟩
      simp [step, bind, Except.bind, on_instruction2, hcond]
    · by_cases hc : c = ','
      · subst hc
        refine ⟨.s2 { (flush2 st b).1 with times := 1, operation := some ',' },
          (flush2 st b).2.append ("m[" ++
            get_relative_pointer_string (flush2 st b).1.pointer_move ++
            "] = int(raw_input(\"Insert a number: \") or 0)"), ?_, f1, f2, f3⟩
        simp +decide [step, bind, Except.bind, on_instruction2, hcond]
      · by_cases hd : c = '.'
        · subst hd
          refine ⟨.s2 { (flush2 st b).1 with times := 1, operation := some '.' },
            (flush2 st b).2.append ("print m[" ++
              get_relative_pointer_string (flush2 st b).1.pointer_move ++ "]"),
            ?_, f1, f2, f3⟩
          simp +decide [step, bind, Except.bind, on_instruction2, hcond]
        · refine ⟨.s2 { (flush2 st b).1 with times := 1, operation := some c },
            (flush2 st b).2, ?_, f1, f2, f3⟩
          simp [step, bind, Except.bind, on_instruction2, hcond, hc, hd, hc1, hc2]

/-- A loop-open event always succeeds and increases the indentation by one
unit, at every tier. -/
lemma step_instr_open (ms : Int) (cm dm : Bool) (s : CompilerState) (b : CodeBuilder)
    (p : Nat) :
    ∃ s' b', step ms cm dm (s, b) (.instruction '[' p) = .ok (s', b') ∧
      b'.indent = b.indent + b.indent_size ∧ b'.indent_size = b.indent_size ∧
      b'.indent_char = b.indent_char := by
  cases s with
  | s0 =>
    refine ⟨.s0, (b.append ("while m[p]:")).start_block, ?_, rfl, rfl, rfl⟩
    simp +decide [step, bind, Except.bind, on_instruction0]
  | s1 st =>
    obtain ⟨f1, f2, f3⟩ := flush1_fields ms st b
    refine ⟨.s1 { operation := none, times := 0 },
      ((flush1 ms st b).append ("while m[p]:")).start_block, ?_, ?_, f2, f3⟩
    · simp +decide [step, bind, Except.bind, on_instruction1, on_instruction0, accumulated]
    · show (flush1 ms st b).indent + (flush1 ms st b).indent_size =
        b.indent + b.indent_size
      rw [f1, f2]
  | s2 st =>
    obtain ⟨f1, f2, f3⟩ := flush2_fields st b
    obtain ⟨g1, g2, g3⟩ := commit_pointer_fields ms { (flush2 st b).1 with times := 1, operation := some '[' } (flush2 st b).2
    refine ⟨.s2 (commit_pointer ms { (flush2 st b).1 with times := 1, operation := some '[' } (flush2 st b).2).1, ((commit_pointer ms { (flush2 st b).1 with times := 1, operation := some '[' } (flush2 st b).2).2.append ("while m[" ++ get_relative_pointer_string (commit_pointer ms { (flush2 st b).1 with times := 1, operation := some '[' } (flush2 st b).2).1.pointer_move ++ "]:")).start_block, ?_, ?_, g2.trans f2, g3.trans f3⟩
    · simp +decide only [step, bind, Except.bind, on_instruction2, Bool.false_and,
        false_and, Bool.and_eq_true, if_false, if_true, Bool.false_eq_true, ite_false,
        ite_true]
    · show (commit_pointer ms { (flush2 st b).1 with times := 1, operation := some '[' } (flush2 st b).2).2.indent + (commit_pointer ms { (flush2 st b).1 with times := 1, operation := some '[' } (flush2 st b).2).2.indent_size = b.indent + b.indent_size
      rw [g1, g2, f1, f2]

/-- A loop-close event succeeds and decreases the indentation by one unit
exactly when that keeps it non-negative; otherwise it fails with the
unmatched-close structural error — at every tier. -/
lemma step_instr_close (ms : Int) (cm dm : Bool) (s : CompilerState) (b : CodeBuilder)
    (p : Nat) :
    (0 ≤ b.indent - b.indent_size →
      ∃ s' b', step ms cm dm (s, b) (.instruction ']' p) = .ok (s', b') ∧
        b'.indent = b.indent - b.indent_size ∧ b'.indent_size = b.indent_size ∧
        b'.indent_char = b.indent_char) ∧
    (b.indent - b.indent_size < 0 →
      step ms cm dm (s, b) (.instruction ']' p) = .error (.structuralError (""))) := by
  cases s with
  | s0 =>
    constructor
    · intro hce
      refine ⟨.s0, { b with indent := b.indent - b.indent_size }, ?_, rfl, rfl, rfl⟩
      simp +decide [step, bind, Except.bind, on_instruction0, CodeBuilder.end_block,
        ge_iff_le, hce]
    · intro hce
      have hne : ¬ (0 ≤ b.indent - b.indent_size) := not_le.2 hce
      simp +decide [step, bind, Except.bind, on_instruction0, CodeBuilder.end_block,
        ge_iff_le, hne]
  | s1 st =>
    obtain ⟨f1, f2, f3⟩ := flush1_fields ms st b
    have hsub : (flush1 ms st b).indent - (flush1 ms st b).indent_size =
        b.indent - b.indent_size := by rw [f1, f2]
    constructor
    · intro hce
      refine ⟨.s1 { operation := none, times := 0 },
        { flush1 ms st b with indent := (flush1 ms st b).indent - (flush1 ms st b).indent_size }, ?_, ?_, f2, f3⟩
      · simp +decide [step, bind, Except.bind, on_instruction1, accumulated,
          on_instruction0, CodeBuilder.end_block, ge_iff_le, hsub, hce]
      · show (flush1 ms st b).indent - (flush1 ms st b).indent_size =
          b.indent - b.indent_size
        exact hsub
    · intro hce
      have hne : ¬ (0 ≤ (flush1 ms st b).indent - (flush1 ms st b).indent_size) := by
        rw [hsub]
        exact not_le.2 hce
      simp +decide [step, bind, Except.bind, on_instruction1, accumulated,
        on_instruction0, CodeBuilder.end_block, ge_iff_le, hne]
  | s2 st =>
    obtain ⟨f1, f2, f3⟩ := flush2_fields st b
    obtain ⟨g1, g2, g3⟩ := commit_pointer_fields ms { (flush2 st b).1 with times := 1, operation := some ']' } (flush2 st b).2
    have hsub : (commit_pointer ms { (flush2 st b).1 with times := 1, operation := some ']' } (flush2 st b).2).2.indent - (commit_pointer ms { (flush2 st b).1 with times := 1, operation := some ']' } (flush2 st b).2).2.indent_size = b.indent - b.indent_size := by
      rw [g1, g2, f1, f2]
    constructor
    · intro hce
      refine ⟨.s2 (commit_pointer ms { (flush2 st b).1 with times := 1, operation := some ']' } (flush2 st b).2).1, { (commit_pointer ms { (flush2 st b).1 with times := 1, operation := some ']' } (flush2 st b).2).2 with indent := (commit_pointer ms { (flush2 st b).1 with times := 1, operation := some ']' } (flush2 st b).2).2.indent - (commit_pointer ms { (flush2 st b).1 with times := 1, operation := some ']' } (flush2 st b).2).2.indent_size }, ?_, ?_, g2.trans f2, g3.trans f3⟩
      · have hok : 0 ≤ (commit_pointer ms { (flush2 st b).1 with times := 1, operation := some ']' } (flush2 st b).2).2.indent - (commit_pointer ms { (flush2 st b).1 with times := 1, operation := some ']' } (flush2 st b).2).2.indent_size := by
          rw [hsub]
          exact hce
        simp +decide only [step, bind, Except.bind, on_instruction2, Bool.false_and,
          false_and, Bool.and_eq_true, if_false, if_true, Bool.false_eq_true, ite_false,
          ite_true]
        simp [CodeBuilder.end_block, ge_iff_le, hok, bind, Except.bind]
      · exact hsub
    · intro hce
      have hne : ¬ (0 ≤ (commit_pointer ms { (flush2 st b).1 with times := 1, operation := some ']' } (flush2 st b).2).2.indent - (commit_pointer ms { (flush2 st b).1 with times := 1, operation := some ']' } (flush2 st b).2).2.indent_size) := by
        rw [hsub]
        exact not_le.2 hce
      simp +decide only [step, bind, Except.bind, on_instruction2, Bool.false_and,
        false_and, Bool.and_eq_true, if_false, if_true, Bool.false_eq_true, ite_false,
        ite_true]
      simp [CodeBuilder.end_block, ge_iff_le, hne, bind, Except.bind]

/-- A comment event always succeeds and keeps the indentation state, at
every tier. -/
lemma step_comment (ms : Int) (cm dm : Bool) (s : CompilerState) (b : CodeBuilder)
    (t : String) (i j : Nat) :
    ∃ s' b', step ms cm dm (s, b) (.comment t i j) = .ok (s', b') ∧
      b'.indent = b.indent ∧ b'.indent_size = b.indent_size ∧
      b'.indent_char = b.indent_char := by
  obtain ⟨c1, c2, c3⟩ := on_comment0_fields b t
  have e1 : (if cm then on_comment0 b t else b).indent = b.indent := by
    split
    · exact c1
    · rfl
  have e2 : (if cm then on_comment0 b t else b).indent_size = b.indent_size := by
    split
    · exact c2
    · rfl
  have e3 : (if cm then on_comment0 b t else b).indent_char = b.indent_char := by
    split
    · exact c3
    · rfl
  cases s with
  | s0 => exact ⟨.s0, _, rfl, e1, e2, e3⟩
  | s1 st => exact ⟨.s1 st, _, rfl, e1, e2, e3⟩
  | s2 st => exact ⟨.s2 st, _, rfl, e1, e2, e3⟩

/-- The finish event succeeds exactly when the indentation has returned to
zero, and otherwise fails with the unclosed-loop structural error — at
every tier. -/
lemma step_finish_indent (ms : Int) (cm dm : Bool) (s : CompilerState) (b : CodeBuilder) :
    (b.indent = 0 → ∃ s' b', step ms cm dm (s, b) .finish = .ok (s', b')) ∧
    (b.indent ≠ 0 →
      step ms cm dm (s, b) .finish =
        .error (.structuralError ("Some loops are not closed"))) := by
  cases s with
  | s0 =>
    constructor
    · intro h0
      exact ⟨.s0, if dm then write_dump_memory ms cm b else b,
        by simp [step, bind, Except.bind, on_finish0, h0]⟩
    · intro h0
      simp [step, bind, Except.bind, on_finish0, h0]
  | s1 st =>
    obtain ⟨f1, f2, f3⟩ := flush1_fields ms st b
    constructor
    · intro h0
      refine ⟨.s1 st, if dm then write_dump_memory ms cm (flush1 ms st b)
          else flush1 ms st b, ?_⟩
      simp [step, bind, Except.bind, on_finish1, on_finish0, f1, h0]
    · intro h0
      simp [step, bind, Except.bind, on_finish1, on_finish0, f1, h0]
  | s2 st =>
    constructor
    · intro h0
      exact ⟨.s2 st, if dm then write_dump_memory ms cm b else b,
        by simp [step, bind, Except.bind, on_finish0, h0]⟩
    · intro h0
      simp [step, bind, Except.bind, on_finish0, h0]

/-- Splitting an event run at an append. -/
lemma runEvents_append (ms : Int) (cm dm : Bool) :
    ∀ (evs1 evs2 : List Event) (sb : CompilerState × CodeBuilder),
      runEvents ms cm dm sb (evs1 ++ evs2) =
        (runEvents ms cm dm sb evs1).bind (fun sb' => runEvents ms cm dm sb' evs2) := by
  intro evs1
  induction evs1 with
  | nil =>
    intro evs2 sb
    rfl
  | cons e evs1 ih =>
    intro evs2 sb
    show runEvents ms cm dm sb (e :: (evs1 ++ evs2)) = _
    simp only [runEvents, bind, Except.bind]
    cases hstep : step ms cm dm sb e with
    | error err => rfl
    | ok sb' => exact ih evs2 sb'

/-- Running the scan events tracks the bracket depth: the builder's
indentation is always `indent_size` times the depth, an unmatched close
aborts with the empty-message structural error, and otherwise the run
succeeds — at every tier. -/
lemma runEvents_depth (ms : Int) (cm dm : Bool) :
    ∀ (evs : List Event), (∀ e ∈ evs, e ≠ .finish) →
      ∀ (s : CompilerState) (b : CodeBuilder) (d : Int),
        b.indent = b.indent_size * d → 0 ≤ d → 0 < b.indent_size →
        (scanDepthE evs d = none →
          runEvents ms cm dm (s, b) evs = .error (.structuralError (""))) ∧
        (∀ d', scanDepthE evs d = some d' →
          ∃ s' b', runEvents ms cm dm (s, b) evs = .ok (s', b') ∧
            b'.indent = b.indent_size * d' ∧ 0 ≤ d' ∧
            b'.indent_size = b.indent_size) := by
  intro evs
  induction evs with
  | nil =>
    intro _ s b d hind hd hsz
    constructor
    · intro hnone
      cases hnone
    · intro d' hd'
      have hd2 : some d = some d' := hd'
      injection hd2 with h
      subst h
      exact ⟨s, b, rfl, hind, hd, rfl⟩
  | cons e evs ih =>
    intro hnf s b d hind hd hsz
    have hnf' : ∀ e' ∈ evs, e' ≠ .finish := fun e' he' => hnf e' (List.mem_cons_of_mem _ he')
    cases e with
    | finish => exact absurd rfl (hnf .finish (List.mem_cons_self _ _))
    | comment t i j =>
      obtain ⟨s', b', hstep, e1, e2, e3⟩ := step_comment ms cm dm s b t i j
      have hrec := ih hnf' s' b' d (by rw [e1, e2]; exact hind) hd (by rw [e2]; exact hsz)
      constructor
      · intro hnone
        simp only [runEvents, bind, Except.bind, hstep]
        rw [hrec.1 hnone]
      · intro d' hd'
        obtain ⟨s'', b'', hrun, k1, k2, k3⟩ := hrec.2 d' hd'
        exact ⟨s'', b'', by simp only [runEvents, bind, Except.bind, hstep]; exact hrun,
          by rw [k1, e2], k2, k3.trans e2⟩
    | instruction c p =>
      by_cases hop : c = '['
      · subst hop
        obtain ⟨s', b', hstep, e1, e2, e3⟩ := step_instr_open ms cm dm s b p
        have hind' : b'.indent = b'.indent_size * (d + 1) := by
          rw [e1, e2, hind]
          ring
        have hrec := ih hnf' s' b' (d + 1) hind' (by omega) (by rw [e2]; exact hsz)
        constructor
        · intro hnone
          simp only [scanDepthE, if_pos rfl] at hnone
          simp only [runEvents, bind, Except.bind, hstep]
          rw [hrec.1 hnone]
        · intro d' hd'
          simp only [scanDepthE, if_pos rfl] at hd'
          obtain ⟨s'', b'', hrun, k1, k2, k3⟩ := hrec.2 d' hd'
          exact ⟨s'', b'', by simp only [runEvents, bind, Except.bind, hstep]; exact hrun,
            by rw [k1, e2], k2, (k3.trans e2)⟩
      · by_cases hcl : c = ']'
        · subst hcl
          obtain ⟨hok, herr⟩ := step_instr_close ms cm dm s b p
          by_cases hzero : d = 0
          · subst hzero
            have hlt : b.indent - b.indent_size < 0 := by
              rw [hind, mul_zero]
              omega
            constructor
            · intro _
              simp only [runEvents, bind, Except.bind, herr hlt]
            · intro d' hd'
              simp +decide [scanDepthE] at hd'
          · have hge : 0 ≤ b.indent - b.indent_size := by
              rw [hind]
              have hre : b.indent_size * d - b.indent_size = b.indent_size * (d - 1) := by
                ring
              rw [hre]
              apply mul_nonneg (le_of_lt hsz)
              omega
            obtain ⟨s', b', hstep, e1, e2, e3⟩ := hok hge
            have hind' : b'.indent = b'.indent_size * (d - 1) := by
              rw [e1, e2, hind]
              ring
            have hrec := ih hnf' s' b' (d - 1) hind' (by omega) (by rw [e2]; exact hsz)
            constructor
            · intro hnone
              simp only [scanDepthE, if_neg hop, if_pos rfl, if_neg hzero] at hnone
              simp only [runEvents, bind, Except.bind, hstep]
              rw [hrec.1 hnone]
            · intro d' hd'
              simp only [scanDepthE, if_neg hop, if_pos rfl, if_neg hzero] at hd'
              obtain ⟨s'', b'', hrun, k1, k2, k3⟩ := hrec.2 d' hd'
              exact ⟨s'', b'',
                by simp only [runEvents, bind, Except.bind, hstep]; exact hrun,
                by rw [k1, e2], k2, (k3.trans e2)⟩
        · obtain ⟨s', b', hstep, e1, e2, e3⟩ := step_instr_other ms cm dm s b c p hop hcl
          have hrec := ih hnf' s' b' d (by rw [e1, e2]; exact hind) hd
            (by rw [e2]; exact hsz)
          constructor
          · intro hnone
            simp only [scanDepthE, if_neg hop, if_neg hcl] at hnone
            simp only [runEvents, bind, Except.bind, hstep]
            rw [hrec.1 hnone]
          · intro d' hd'
            simp only [scanDepthE, if_neg hop, if_neg hcl] at hd'
            obtain ⟨s'', b'', hrun, k1, k2, k3⟩ := hrec.2 d' hd'
            exact ⟨s'', b'',
              by simp only [runEvents, bind, Except.bind, hstep]; exact hrun,
              by rw [k1, e2], k2, k3.trans e2⟩

/-- Dropping a prefix never lengthens a list. -/
lemma length_dropWhile_le' {α : Type} (p : α → Bool) (l : List α) :
    (l.dropWhile p).length ≤ l.length := by
  induction l with
  | nil => simp
  | cons a l ih =>
    rw [List.dropWhile_cons]
    split
    · exact le_trans ih (Nat.le_succ _)
    · exact le_refl _

/-- The scan never emits a finish event. -/
lemma scanGo_no_finish : ∀ (fuel : Nat) (cs : List Char) (i : Nat),
    ∀ e ∈ scanGo fuel cs i, e ≠ .finish := by
  intro fuel
  induction fuel with
  | zero =>
    intro cs i e he
    simp [scanGo] at he
  | succ fuel ih =>
    intro cs i e he
    cases cs with
    | nil => simp [scanGo] at he
    | cons c rest =>
      simp only [scanGo] at he
      split at he
      · rcases List.mem_cons.1 he with rfl | hmem
        · exact fun h => Event.noConfusion h
        · exact ih rest (i + 1) e hmem
      · rcases List.mem_cons.1 he with rfl | hmem
        · exact fun h => Event.noConfusion h
        · exact ih _ _ e hmem

/-- Non-bracket characters do not change the depth scan. -/
lemma scanDepth_skip : ∀ (l rest : List Char) (d : Int),
    (∀ c ∈ l, c ≠ '[' ∧ c ≠ ']') → scanDepth (l ++ rest) d = scanDepth rest d := by
  intro l
  induction l with
  | nil =>
    intro rest d _
    rfl
  | cons c l ih =>
    intro rest d hc
    have h1 := hc c (List.mem_cons_self _ _)
    show scanDepth (c :: (l ++ rest)) d = _
    simp only [scanDepth, if_neg h1.1, if_neg h1.2]
    exact ih rest d (fun c' hc' => hc c' (List.mem_cons_of_mem _ hc'))

/-- The event-level depth scan agrees with the character-level scan. -/
lemma scanDepthE_scanGo : ∀ (fuel : Nat) (cs : List Char) (i : Nat) (d : Int),
    cs.length ≤ fuel → scanDepthE (scanGo fuel cs i) d = scanDepth cs d := by
  intro fuel
  induction fuel with
  | zero =>
    intro cs i d hlen
    have hnil : cs = [] := List.length_eq_zero.1 (Nat.le_zero.1 hlen)
    subst hnil
    rfl
  | succ fuel ih =>
    intro cs i d hlen
    cases cs with
    | nil => rfl
    | cons c rest =>
      have hrest : rest.length ≤ fuel := by
        simp only [List.length_cons] at hlen
        omega
      by_cases hc : c ∈ instruction_set
      · rw [show scanGo (fuel + 1) (c :: rest) i =
            .instruction c i :: scanGo fuel rest (i + 1) from by simp [scanGo, hc]]
        show scanDepthE (.instruction c i :: scanGo fuel rest (i + 1)) d =
          scanDepth (c :: rest) d
        simp only [scanDepthE, scanDepth]
        by_cases h1 : c = '['
        · rw [if_pos h1, if_pos h1, ih rest (i + 1) (d + 1) hrest]
        · by_cases h2 : c = ']'
          · rw [if_neg h1, if_neg h1, if_pos h2, if_pos h2]
            by_cases h0 : d = 0
            · rw [if_pos h0, if_pos h0]
            · rw [if_neg h0, if_neg h0, ih rest (i + 1) (d - 1) hrest]
          · rw [if_neg h1, if_neg h1, if_neg h2, if_neg h2, ih rest (i + 1) d hrest]
      · have hru : scanGo (fuel + 1) (c :: rest) i =
            .comment (String.mk (c :: rest.takeWhile (fun x => !(x ∈ instruction_set : Bool)))) i (i + (c :: rest.takeWhile (fun x => !(x ∈ instruction_set : Bool))).length) :: scanGo fuel (rest.dropWhile (fun x => !(x ∈ instruction_set : Bool))) (i + (c :: rest.takeWhile (fun x => !(x ∈ instruction_set : Bool))).length) := by
          simp [scanGo, hc]
        rw [hru]
        show scanDepthE (.comment _ _ _ :: scanGo fuel _ _) d = scanDepth (c :: rest) d
        simp only [scanDepthE]
        have hdrop : (rest.dropWhile (fun x => !(x ∈ instruction_set : Bool))).length ≤
            fuel := le_trans (length_dropWhile_le' _ _) hrest
        rw [ih _ _ d hdrop]
        have hcnb : c ≠ '[' ∧ c ≠ ']' :=
          ⟨fun h => hc (h ▸ (by decide)), fun h => hc (h ▸ (by decide))⟩
        have hsplit : c :: rest =
            (c :: rest.takeWhile (fun x => !(x ∈ instruction_set : Bool))) ++
              rest.dropWhile (fun x => !(x ∈ instruction_set : Bool)) := by
          rw [List.cons_append, List.takeWhile_append_dropWhile]
        have hskip : scanDepth (c :: rest) d =
            scanDepth (rest.dropWhile (fun x => !(x ∈ instruction_set : Bool))) d := by
          conv_lhs => rw [hsplit]
          apply scanDepth_skip
          intro c' hc'
          rcases List.mem_cons.1 hc' with rfl | hmem
          · exact hcnb
          · have hmem2 := List.mem_takeWhile_imp hmem
            simp only [Bool.not_eq_eq_eq_not, Bool.not_true, decide_eq_false_iff_not] at hmem2
            exact ⟨fun h => hmem2 (h ▸ (by decide)), fun h => hmem2 (h ▸ (by decide))⟩
        rw [hskip]

/-- C4: compilation fails with the unmatched-close structural error exactly
on programs whose bracket scan hits a close at depth zero; it fails at
Finish with the unclosed-loop structural error on programs whose scan ends
at a nonzero depth; and it succeeds (so no structural error is raised) on
every bracket-balanced program — at every tier, under any valid
configuration.  The unmatched close aborts at its own event because the
dispatch loop stops at the first error. -/
theorem c4_bracket_errors (code : String) (cfg : Config)
    (hm : 0 < cfg.memory) (hi : 0 < cfg.indent)
    (ht : cfg.optimizations = 0 ∨ cfg.optimizations = 1 ∨ cfg.optimizations = 2) :
    (scanDepth code.data 0 = none →
      compile code cfg = .error (.structuralError (""))) ∧
    (∀ d, scanDepth code.data 0 = some d → d ≠ 0 →
      compile code cfg = .error (.structuralError ("Some loops are not closed"))) ∧
    (scanDepth code.data 0 = some 0 → ∃ out, compile code cfg = .ok out) := by
  unfold compile compileBuilder
  rw [if_neg (by omega), if_neg (by omega), if_neg (not_not_intro ht)]
  dsimp only
  unfold tokenize
  rw [runEvents_append]
  have hind0 : (write_incipit cfg.memory (CodeBuilder.init cfg.indent
      (if cfg.tab_indent then '\t' else ' '))).indent =
      (write_incipit cfg.memory (CodeBuilder.init cfg.indent
        (if cfg.tab_indent then '\t' else ' '))).indent_size * 0 := by
    show (0 : Int) = cfg.indent * 0
    rw [mul_zero]
  have hsz0 : (0 : Int) < (write_incipit cfg.memory (CodeBuilder.init cfg.indent
      (if cfg.tab_indent then '\t' else ' '))).indent_size := hi
  have hdep := runEvents_depth cfg.memory cfg.comments cfg.dump
    (scanGo code.data.length code.data 0) (scanGo_no_finish _ _ _)
    (initState cfg.optimizations)
    (write_incipit cfg.memory (CodeBuilder.init cfg.indent
      (if cfg.tab_indent then '\t' else ' '))) 0 hind0 (le_refl 0) hsz0
  have hsc := scanDepthE_scanGo code.data.length code.data 0 0 (le_refl _)
  refine ⟨?_, ?_, ?_⟩
  · intro hnone
    rw [hdep.1 (by rw [hsc]; exact hnone)]
    rfl
  · intro d hd hdne
    obtain ⟨s', b', hrun, k1, k2, k3⟩ := hdep.2 d (by rw [hsc]; exact hd)
    rw [hrun]
    have hne : b'.indent ≠ 0 := by
      rw [k1]
      exact mul_ne_zero (ne_of_gt hsz0) hdne
    have hfin := (step_finish_indent cfg.memory cfg.comments cfg.dump s' b').2 hne
    simp [bind, Except.bind, runEvents, hfin, Except.map]
  · intro hzero
    obtain ⟨s', b', hrun, k1, k2, k3⟩ := hdep.2 0 (by rw [hsc]; exact hzero)
    rw [hrun]
    have h0 : b'.indent = 0 := by rw [k1, mul_zero]
    obtain ⟨s'', b'', hfin⟩ :=
      (step_finish_indent cfg.memory cfg.comments cfg.dump s' b').1 h0
    refine ⟨b''.get_code, ?_⟩
    simp [bind, Except.bind, runEvents, hfin, Except.map]

/-- Witness for C4: the balanced program `[]` compiles successfully at a
concrete configuration. -/
theorem c4_bracket_errors_witness :
    scanDepth ("[]").data 0 = some 0 ∧
      ∃ out, compile ("[]") ⟨5, false, false, 4, false, 0⟩ = .ok out :=
  ⟨by decide,
    (c4_bracket_errors ("[]") ⟨5, false, false, 4, false, 0⟩ (by decide) (by decide)
      (Or.inl rfl)).2.2 (by decide)⟩

/-- Appending a statement to related builders yields related builders. -/
lemma bSim_append (b1 b2 : CodeBuilder) (h : bSim b1 b2) (s : String) :
    bSim (b1.append s) (b2.append s) := by
  obtain ⟨h1, h2, h3, h4⟩ := h
  refine ⟨h1, h2, h3, ?_⟩
  show ((b1.code ++ appendedLines b1 s).filter _) = ((b2.code ++ appendedLines b2 s).filter _)
  rw [List.filter_append, List.filter_append]
  have ha : appendedLines b1 s = appendedLines b2 s := by
    unfold appendedLines indentText
    rw [h1, h3]
  rw [ha]
  exact congrArg (· ++ _) h4

/-- Opening a block preserves the relation. -/
lemma bSim_start_block (b1 b2 : CodeBuilder) (h : bSim b1 b2) :
    bSim b1.start_block b2.start_block := by
  obtain ⟨h1, h2, h3, h4⟩ := h
  refine ⟨?_, h2, h3, h4⟩
  show b1.indent + b1.indent_size = b2.indent + b2.indent_size
  rw [h1, h2]

/-- Closing a block treats related builders alike: the same failure, or
related results. -/
lemma end_block_sim (b1 b2 : CodeBuilder) (h : bSim b1 b2) :
    (b1.end_block = .error (.structuralError ("")) ∧
      b2.end_block = .error (.structuralError (""))) ∨
    (∃ c1 c2, b1.end_block = .ok c1 ∧ b2.end_block = .ok c2 ∧ bSim c1 c2) := by
  obtain ⟨h1, h2, h3, h4⟩ := h
  unfold CodeBuilder.end_block
  by_cases hge : b1.indent - b1.indent_size ≥ 0
  · right
    rw [if_pos hge, if_pos (by rw [← h1, ← h2]; exact hge)]
    refine ⟨_, _, rfl, rfl, ?_, h2, h3, h4⟩
    show b1.indent - b1.indent_size = b2.indent - b2.indent_size
    rw [h1, h2]
  · left
    rw [if_neg hge, if_neg (by rw [← h1, ← h2]; exact hge)]
    exact ⟨rfl, rfl⟩

/-- The tier-1 flush preserves the relation. -/
lemma bSim_flush1 (ms : Int) (st : Compiler1State) (b1 b2 : CodeBuilder)
    (h : bSim b1 b2) : bSim (flush1 ms st b1) (flush1 ms st b2) := by
  unfold flush1
  split_ifs <;> first | exact bSim_append _ _ h _ | exact h

/-- The tier-2 flush produces the same accumulation state from any builder,
and preserves the relation. -/
lemma flush2_sim (st : Compiler2State) (b1 b2 : CodeBuilder) (h : bSim b1 b2) :
    (flush2 st b1).1 = (flush2 st b2).1 ∧ bSim (flush2 st b1).2 (flush2 st b2).2 := by
  unfold flush2
  split_ifs <;> exact ⟨rfl, by first | exact bSim_append _ _ h _ | exact h⟩

/-- The pointer commit produces the same accumulation state from any builder,
and preserves the relation. -/
lemma commit_pointer_sim (ms : Int) (st : Compiler2State) (b1 b2 : CodeBuilder)
    (h : bSim b1 b2) : (commit_pointer ms st b1).1 = (commit_pointer ms st b2).1 ∧
      bSim (commit_pointer ms st b1).2 (commit_pointer ms st b2).2 := by
  unfold commit_pointer
  split_ifs <;> exact ⟨rfl, by first | exact bSim_append _ _ h _ | exact h⟩

/-- The tier-0 instruction handler treats related builders alike. -/
lemma on_instruction0_sim (ms : Int) (b1 b2 : CodeBuilder) (h : bSim b1 b2) (c : Char) :
    (∃ e, on_instruction0 ms b1 c = .error e ∧ on_instruction0 ms b2 c = .error e) ∨
    (∃ c1 c2, on_instruction0 ms b1 c = .ok c1 ∧ on_instruction0 ms b2 c = .ok c2 ∧
      bSim c1 c2) := by
  unfold on_instruction0
  split_ifs
  · exact Or.inr ⟨_, _, rfl, rfl, bSim_append _ _ h _⟩
  · exact Or.inr ⟨_, _, rfl, rfl, bSim_append _ _ h _⟩
  · exact Or.inr ⟨_, _, rfl, rfl, bSim_append _ _ h _⟩
  · exact Or.inr ⟨_, _, rfl, rfl, bSim_append _ _ h _⟩
  · exact Or.inr ⟨_, _, rfl, rfl, bSim_append _ _ h _⟩
  · exact Or.inr ⟨_, _, rfl, rfl, bSim_start_block _ _ (bSim_append _ _ h _)⟩
  · rcases end_block_sim b1 b2 h with ⟨e1, e2⟩ | ⟨c1, c2, o1, o2, hs⟩
    · exact Or.inl ⟨_, e1, e2⟩
    · exact Or.inr ⟨c1, c2, o1, o2, hs⟩
  · exact Or.inr ⟨_, _, rfl, rfl, h⟩

/-- A generated comment line is always comment-tagged. -/
lemma isCommentTagged_hash (s : String) : isCommentTagged (("# ") ++ s) = true := by
  unfold isCommentTagged
  rw [String.data_append, show ("# ").data = ['#', ' '] from rfl]
  simp only [List.cons_append, List.nil_append]
  rw [List.dropWhile_cons, if_neg (by decide)]
  rfl

/-- The comment pass contributes no executable statement. -/
lemma foldl_comment_execLines (lines : List String) :
    ∀ b : CodeBuilder, isPyWhitespace b.indent_char = true →
      (∀ line ∈ lines, noNL line) →
      execLines (lines.foldl (fun b line =>
        let c := pyStrip line
        if c ≠ ("") then b.append ("# " ++ c) else b) b) = execLines b := by
  induction lines with
  | nil =>
    intro b _ _
    rfl
  | cons line rest ih =>
    intro b hws hnl
    rw [List.foldl_cons]
    have hstep : execLines (if pyStrip line ≠ ("") then b.append ("# " ++ pyStrip line)
        else b) = execLines b := by
      split
      · show ((b.code ++ appendedLines b ("# " ++ pyStrip line)).filter _) = _
        rw [List.filter_append]
        have h1 : splitLines ("# " ++ pyStrip line) = [("# " ++ pyStrip line)] :=
          splitLines_single _ (noNL_append (by decide)
            (pyStrip_noNL line (hnl line (List.mem_cons_self _ _))))
        unfold appendedLines
        rw [h1, List.map_cons, List.map_nil, List.filter_cons]
        rw [isCommentTagged_indent b hws, isCommentTagged_hash]
        simp [execLines]
      · rfl
    have hchar : (if pyStrip line ≠ ("") then b.append ("# " ++ pyStrip line)
        else b).indent_char = b.indent_char := by split <;> rfl
    exact (ih (if pyStrip line ≠ ("") then b.append ("# " ++ pyStrip line) else b)
      (by rw [hchar]; exact hws)
      (fun l hl => hnl l (List.mem_cons_of_mem _ hl))).trans hstep

/-- `on_comment` contributes no executable statement. -/
lemma on_comment0_execLines (b : CodeBuilder) (t : String)
    (hws : isPyWhitespace b.indent_char = true) :
    execLines (on_comment0 b t) = execLines b := by
  unfold on_comment0
  exact foldl_comment_execLines _ b hws (splitLines_pieces_noNL t)

/-- Delivering a comment event on one side only preserves the relation. -/
lemma bSim_comment_step (cm : Bool) (b1 b2 : CodeBuilder) (t : String)
    (hws : isPyWhitespace b1.indent_char = true) (h : bSim b1 b2) :
    bSim (if cm then on_comment0 b1 t else b1) b2 := by
  cases cm
  · exact h
  · obtain ⟨h1, h2, h3, h4⟩ := h
    obtain ⟨f1, f2, f3⟩ := on_comment0_fields b1 t
    exact ⟨f1.trans h1, f2.trans h2, f3.trans h3,
      (on_comment0_execLines b1 t hws).trans h4⟩

/-- The dump epilogue preserves the relation. -/
lemma write_dump_memory_sim (ms : Int) (cm : Bool) (b1 b2 : CodeBuilder)
    (h : bSim b1 b2) : bSim (write_dump_memory ms cm b1) (write_dump_memory ms cm b2) := by
  unfold write_dump_memory
  cases cm
  · exact bSim_append _ _ h _
  · exact bSim_append _ _ (bSim_append _ _ h _) _

/-- The tier-0 finish handler treats related builders alike. -/
lemma on_finish0_sim (ms : Int) (cm dm : Bool) (b1 b2 : CodeBuilder) (h : bSim b1 b2) :
    (∃ e, on_finish0 ms cm dm b1 = .error e ∧ on_finish0 ms cm dm b2 = .error e) ∨
    (∃ c1 c2, on_finish0 ms cm dm b1 = .ok c1 ∧ on_finish0 ms cm dm b2 = .ok c2 ∧
      bSim c1 c2) := by
  unfold on_finish0
  by_cases h0 : b1.indent = 0
  · have h0' : b2.indent = 0 := by rw [← h.1]; exact h0
    rw [if_pos h0, if_pos h0']
    right
    cases dm
    · exact ⟨_, _, rfl, rfl, h⟩
    · exact ⟨_, _, rfl, rfl, write_dump_memory_sim ms cm b1 b2 h⟩
  · have h0' : ¬ b2.indent = 0 := by rw [← h.1]; exact h0
    rw [if_neg h0, if_neg h0']
    exact Or.inl ⟨_, rfl, rfl⟩

/-- The tier-1 finish handler treats related builders alike. -/
lemma on_finish1_sim (ms : Int) (cm dm : Bool) (st : Compiler1State) (b1 b2 : CodeBuilder)
    (h : bSim b1 b2) :
    (∃ e, on_finish1 ms cm dm st b1 = .error e ∧ on_finish1 ms cm dm st b2 = .error e) ∨
    (∃ c1 c2, on_finish1 ms cm dm st b1 = .ok c1 ∧ on_finish1 ms cm dm st b2 = .ok c2 ∧
      bSim c1 c2) := by
  unfold on_finish1
  exact on_finish0_sim ms cm dm _ _ (bSim_flush1 ms st b1 b2 h)

/-- The tier-1 instruction handler treats related builders alike. -/
lemma on_instruction1_sim (ms : Int) (st : Compiler1State) (b1 b2 : CodeBuilder)
    (h : bSim b1 b2) (c : Char) :
    (∃ e, on_instruction1 ms st b1 c = .error e ∧ on_instruction1 ms st b2 c = .error e) ∨
    (∃ st' c1 c2, on_instruction1 ms st b1 c = .ok (st', c1) ∧
      on_instruction1 ms st b2 c = .ok (st', c2) ∧ bSim c1 c2) := by
  unfold on_instruction1
  split_ifs
  · exact Or.inr ⟨_, _, _, rfl, rfl, h⟩
  · exact Or.inr ⟨_, _, _, rfl, rfl, bSim_flush1 ms st b1 b2 h⟩
  · rcases on_instruction0_sim ms (flush1 ms st b1) (flush1 ms st b2)
        (bSim_flush1 ms st b1 b2 h) c with ⟨e, e1, e2⟩ | ⟨c1, c2, o1, o2, hs⟩
    · left
      refine ⟨e, ?_, ?_⟩ <;> simp [bind, Except.bind, e1, e2]
    · right
      refine ⟨{ operation := none, times := 0 }, c1, c2, ?_, ?_, hs⟩ <;>
        simp [bind, Except.bind, o1, o2]

/-- The tier-2 instruction handler treats related builders alike. -/
lemma on_instruction2_sim (ms : Int) (st : Compiler2State) (b1 b2 : CodeBuilder)
    (h : bSim b1 b2) (c : Char) :
    (∃ e, on_instruction2 ms st b1 c = .error e ∧ on_instruction2 ms st b2 c = .error e) ∨
    (∃ st' c1 c2, on_instruction2 ms st b1 c = .ok (st', c1) ∧
      on_instruction2 ms st b2 c = .ok (st', c2) ∧ bSim c1 c2) := by
  unfold on_instruction2
  obtain ⟨hf1, hf2⟩ := flush2_sim st b1 b2 h
  dsimp only
  rw [← hf1]
  obtain ⟨hc1, hc2⟩ := commit_pointer_sim ms
    { (flush2 st b1).1 with times := 1, operation := some c }
    (flush2 st b1).2 (flush2 st b2).2 hf2
  split_ifs
  · exact Or.inr ⟨_, _, _, rfl, rfl, h⟩
  · exact Or.inr ⟨_, _, _, rfl, rfl, bSim_append _ _ hf2 _⟩
  · exact Or.inr ⟨_, _, _, rfl, rfl, bSim_append _ _ hf2 _⟩
  · rw [← hc1]
    exact Or.inr ⟨_, _, _, rfl, rfl, bSim_start_block _ _ (bSim_append _ _ hc2 _)⟩
  · rw [← hc1]
    rcases end_block_sim _ _ hc2 with ⟨e1, e2⟩ | ⟨d1, d2, o1, o2, hs⟩
    · left
      refine ⟨CompileError.structuralError (""), ?_, ?_⟩ <;> simp [bind, Except.bind, e1, e2]
    · right
      refine ⟨(commit_pointer ms { (flush2 st b1).1 with times := 1, operation := some c } (flush2 st b1).2).1, d1, d2, ?_, ?_, hs⟩ <;> simp [bind, Except.bind, o1, o2]
  · exact Or.inr ⟨_, _, _, rfl, rfl, hf2⟩

/-- A comment event never fails and leaves the compiler state unchanged. -/
lemma step_comment_eq (ms : Int) (cm dm : Bool) (s : CompilerState) (b : CodeBuilder)
    (t : String) (i j : Nat) :
    step ms cm dm (s, b) (.comment t i j) =
      .ok (s, if cm then on_comment0 b t else b) := by
  cases s <;> rfl

/-- One instruction event treats related configurations alike, for any pair
of source offsets. -/
lemma step_sim_instr (ms : Int) (cm dm : Bool) (s : CompilerState) (b1 b2 : CodeBuilder)
    (h : bSim b1 b2) (c : Char) (i j : Nat) :
    (∃ e, step ms cm dm (s, b1) (.instruction c i) = .error e ∧
      step ms cm dm (s, b2) (.instruction c j) = .error e) ∨
    (∃ s' c1 c2, step ms cm dm (s, b1) (.instruction c i) = .ok (s', c1) ∧
      step ms cm dm (s, b2) (.instruction c j) = .ok (s', c2) ∧ bSim c1 c2) := by
  cases s with
  | s0 =>
    rcases on_instruction0_sim ms b1 b2 h c with ⟨e, e1, e2⟩ | ⟨c1, c2, o1, o2, hs⟩
    · left
      refine ⟨e, ?_, ?_⟩ <;> simp [step, bind, Except.bind, e1, e2]
    · right
      refine ⟨.s0, c1, c2, ?_, ?_, hs⟩ <;> simp [step, bind, Except.bind, o1, o2]
  | s1 st =>
    rcases on_instruction1_sim ms st b1 b2 h c with ⟨e, e1, e2⟩ | ⟨st', c1, c2, o1, o2, hs⟩
    · left
      refine ⟨e, ?_, ?_⟩ <;> simp [step, bind, Except.bind, e1, e2]
    · right
      refine ⟨.s1 st', c1, c2, ?_, ?_, hs⟩ <;> simp [step, bind, Except.bind, o1, o2]
  | s2 st =>
    rcases on_instruction2_sim ms st b1 b2 h c with ⟨e, e1, e2⟩ | ⟨st', c1, c2, o1, o2, hs⟩
    · left
      refine ⟨e, ?_, ?_⟩ <;> simp [step, bind, Except.bind, e1, e2]
    · right
      refine ⟨.s2 st', c1, c2, ?_, ?_, hs⟩ <;> simp [step, bind, Except.bind, o1, o2]

/-- The finish event treats related configurations alike. -/
lemma step_sim_finish (ms : Int) (cm dm : Bool) (s : CompilerState) (b1 b2 : CodeBuilder)
    (h : bSim b1 b2) :
    (∃ e, step ms cm dm (s, b1) .finish = .error e ∧
      step ms cm dm (s, b2) .finish = .error e) ∨
    (∃ s' c1 c2, step ms cm dm (s, b1) .finish = .ok (s', c1) ∧
      step ms cm dm (s, b2) .finish = .ok (s', c2) ∧ bSim c1 c2) := by
  cases s with
  | s0 =>
    rcases on_finish0_sim ms cm dm b1 b2 h with ⟨e, e1, e2⟩ | ⟨c1, c2, o1, o2, hs⟩
    · left
      refine ⟨e, ?_, ?_⟩ <;> simp [step, bind, Except.bind, e1, e2]
    · right
      refine ⟨.s0, c1, c2, ?_, ?_, hs⟩ <;> simp [step, bind, Except.bind, o1, o2]
  | s1 st =>
    rcases on_finish1_sim ms cm dm st b1 b2 h with ⟨e, e1, e2⟩ | ⟨c1, c2, o1, o2, hs⟩
    · left
      refine ⟨e, ?_, ?_⟩ <;> simp [step, bind, Except.bind, e1, e2]
    · right
      refine ⟨.s1 st, c1, c2, ?_, ?_, hs⟩ <;> simp [step, bind, Except.bind, o1, o2]
  | s2 st =>
    rcases on_finish0_sim ms cm dm b1 b2 h with ⟨e, e1, e2⟩ | ⟨c1, c2, o1, o2, hs⟩
    · left
      refine ⟨e, ?_, ?_⟩ <;> simp [step, bind, Except.bind, e1, e2]
    · right
      refine ⟨.s2 st, c1, c2, ?_, ?_, hs⟩ <;> simp [step, bind, Except.bind, o1, o2]

/-- Comment-erasure simulation: a run over any event stream fails exactly
like the run over its comment-free projection, and on success both end in the
same compiler state with the same executable statements. -/
lemma runEvents_sim (ms : Int) (cm dm : Bool) : ∀ (evs : List Event)
    (s : CompilerState) (b1 b2 : CodeBuilder),
    isPyWhitespace b1.indent_char = true → goodLines b1 → bSim b1 b2 →
    (∃ e, runEvents ms cm dm (s, b1) evs = .error e ∧
      runEvents ms cm dm (s, b2) (eraseComments evs) = .error e) ∨
    (∃ s' c1 c2, runEvents ms cm dm (s, b1) evs = .ok (s', c1) ∧
      runEvents ms cm dm (s, b2) (eraseComments evs) = .ok (s', c2) ∧ bSim c1 c2) := by
  intro evs
  induction evs with
  | nil =>
    intro s b1 b2 _ _ h
    exact Or.inr ⟨s, b1, b2, rfl, rfl, h⟩
  | cons e es ih =>
    intro s b1 b2 hws hg h
    cases e with
    | instruction c i =>
      rcases step_sim_instr ms cm dm s b1 b2 h c i 0 with ⟨e', e1, e2⟩ | ⟨s', c1, c2, o1, o2, hs⟩
      · left
        refine ⟨e', ?_, ?_⟩
        · simp [runEvents, bind, Except.bind, e1]
        · show runEvents ms cm dm (s, b2) (.instruction c 0 :: eraseComments es) = .error e'
          simp [runEvents, bind, Except.bind, e2]
      · obtain ⟨hg', hchar⟩ := step_goodLines ms cm dm s b1 _ s' c1 o1 hws hg
        rcases ih s' c1 c2 (by rw [hchar]; exact hws) hg' hs with
          ⟨e', r1, r2⟩ | ⟨s'', d1, d2, r1, r2, hr⟩
        · left
          refine ⟨e', ?_, ?_⟩
          · simp [runEvents, bind, Except.bind, o1, r1]
          · show runEvents ms cm dm (s, b2) (.instruction c 0 :: eraseComments es) = .error e'
            simp [runEvents, bind, Except.bind, o2, r2]
        · right
          refine ⟨s'', d1, d2, ?_, ?_, hr⟩
          · simp [runEvents, bind, Except.bind, o1, r1]
          · show runEvents ms cm dm (s, b2) (.instruction c 0 :: eraseComments es) = .ok (s'', d2)
            simp [runEvents, bind, Except.bind, o2, r2]
    | comment t a z =>
      have hws' : isPyWhitespace (if cm then on_comment0 b1 t else b1).indent_char = true := by
        cases cm
        · exact hws
        · rw [if_pos rfl, (on_comment0_fields b1 t).2.2]; exact hws
      have hg' : goodLines (if cm then on_comment0 b1 t else b1) := by
        cases cm
        · exact hg
        · exact (on_comment0_goodLines b1 t hws hg).1
      have hsim' := bSim_comment_step cm b1 b2 t hws h
      have hrun1 : runEvents ms cm dm (s, b1) (.comment t a z :: es) =
          runEvents ms cm dm (s, if cm then on_comment0 b1 t else b1) es := by
        show (do
          let sb' ← step ms cm dm (s, b1) (.comment t a z)
          runEvents ms cm dm sb' es) = _
        rw [step_comment_eq]
        rfl
      rcases ih s (if cm then on_comment0 b1 t else b1) b2 hws' hg' hsim' with
        ⟨e', r1, r2⟩ | ⟨s'', d1, d2, r1, r2, hr⟩
      · left
        exact ⟨e', by rw [hrun1]; exact r1, r2⟩
      · right
        exact ⟨s'', d1, d2, by rw [hrun1]; exact r1, r2, hr⟩
    | finish =>
      rcases step_sim_finish ms cm dm s b1 b2 h with ⟨e', e1, e2⟩ | ⟨s', c1, c2, o1, o2, hs⟩
      · left
        refine ⟨e', ?_, ?_⟩
        · simp [runEvents, bind, Except.bind, e1]
        · show runEvents ms cm dm (s, b2) (.finish :: eraseComments es) = .error e'
          simp [runEvents, bind, Except.bind, e2]
      · obtain ⟨hg', hchar⟩ := step_goodLines ms cm dm s b1 _ s' c1 o1 hws hg
        rcases ih s' c1 c2 (by rw [hchar]; exact hws) hg' hs with
          ⟨e', r1, r2⟩ | ⟨s'', d1, d2, r1, r2, hr⟩
        · left
          refine ⟨e', ?_, ?_⟩
          · simp [runEvents, bind, Except.bind, o1, r1]
          · show runEvents ms cm dm (s, b2) (.finish :: eraseComments es) = .error e'
            simp [runEvents, bind, Except.bind, o2, r2]
        · right
          refine ⟨s'', d1, d2, ?_, ?_, hr⟩
          · simp [runEvents, bind, Except.bind, o1, r1]
          · show runEvents ms cm dm (s, b2) (.finish :: eraseComments es) = .ok (s'', d2)
            simp [runEvents, bind, Except.bind, o2, r2]

/-- Erasure distributes over concatenation of event streams. -/
lemma eraseComments_append (l1 l2 : List Event) :
    eraseComments (l1 ++ l2) = eraseComments l1 ++ eraseComments l2 := by
  induction l1 with
  | nil => rfl
  | cons e es ih =>
    cases e <;> simp [eraseComments, ih]

/-- The comment-free projection of the scan is exactly the instruction
characters of the source, in order. -/
lemma eraseComments_scanGo : ∀ (fuel : Nat) (cs : List Char) (i : Nat),
    cs.length ≤ fuel →
    eraseComments (scanGo fuel cs i) =
      (cs.filter (fun c => (c ∈ instruction_set : Bool))).map
        (fun c => Event.instruction c 0) := by
  intro fuel
  induction fuel with
  | zero =>
    intro cs i hlen
    have hnil : cs = [] := List.length_eq_zero.1 (Nat.le_zero.1 hlen)
    subst hnil
    rfl
  | succ fuel ih =>
    intro cs i hlen
    cases cs with
    | nil => rfl
    | cons c rest =>
      have hrest : rest.length ≤ fuel := by
        simp only [List.length_cons] at hlen
        omega
      by_cases hc : c ∈ instruction_set
      · rw [show scanGo (fuel + 1) (c :: rest) i =
            .instruction c i :: scanGo fuel rest (i + 1) from by simp [scanGo, hc]]
        show Event.instruction c 0 :: eraseComments (scanGo fuel rest (i + 1)) = _
        rw [ih rest (i + 1) hrest, List.filter_cons, if_pos (by simpa using hc)]
        rfl
      · have hru : scanGo (fuel + 1) (c :: rest) i =
            .comment (String.mk (c :: rest.takeWhile (fun x => !(x ∈ instruction_set : Bool)))) i (i + (c :: rest.takeWhile (fun x => !(x ∈ instruction_set : Bool))).length) :: scanGo fuel (rest.dropWhile (fun x => !(x ∈ instruction_set : Bool))) (i + (c :: rest.takeWhile (fun x => !(x ∈ instruction_set : Bool))).length) := by
          simp [scanGo, hc]
        rw [hru]
        show eraseComments (scanGo fuel (rest.dropWhile (fun x => !(x ∈ instruction_set : Bool))) (i + (c :: rest.takeWhile (fun x => !(x ∈ instruction_set : Bool))).length)) = _
        have hdrop : (rest.dropWhile (fun x => !(x ∈ instruction_set : Bool))).length ≤
            fuel := le_trans (length_dropWhile_le' _ _) hrest
        rw [ih _ _ hdrop]
        have hsplit : c :: rest =
            (c :: rest.takeWhile (fun x => !(x ∈ instruction_set : Bool))) ++
              rest.dropWhile (fun x => !(x ∈ instruction_set : Bool)) := by
          rw [List.cons_append, List.takeWhile_append_dropWhile]
        have hall : ∀ a ∈ c :: rest.takeWhile (fun x => !(x ∈ instruction_set : Bool)),
            ¬ ((fun c => (c ∈ instruction_set : Bool)) a = true) := by
          intro a ha
          rcases List.mem_cons.1 ha with rfl | hmem
          · simpa using hc
          · have hmem2 := List.mem_takeWhile_imp hmem
            simpa using hmem2
        have hfil : (c :: rest).filter (fun c => (c ∈ instruction_set : Bool)) =
            (rest.dropWhile (fun x => !(x ∈ instruction_set : Bool))).filter
              (fun c => (c ∈ instruction_set : Bool)) := by
          conv_lhs => rw [hsplit]
          rw [List.filter_append, List.filter_eq_nil.2 hall, List.nil_append]
        rw [hfil]

/-- C6: removing the comment runs from a source program never changes the
generated executable statements.  The whole compilation is compared: an
invalid configuration or a structural error is reproduced identically, and a
successful compilation of the stripped source produces a builder with
exactly the same non-comment lines, at every tier. -/
theorem c6_comment_neutrality (code : String) (cfg : Config) :
    (compileBuilder code cfg).map execLines =
      (compileBuilder (stripComments code) cfg).map execLines := by
  unfold compileBuilder
  by_cases h1 : ¬ cfg.memory > 0
  · rw [if_pos h1, if_pos h1]
  · rw [if_neg h1, if_neg h1]
    by_cases h2 : ¬ cfg.indent > 0
    · rw [if_pos h2, if_pos h2]
    · rw [if_neg h2, if_neg h2]
      by_cases h3 : ¬ (cfg.optimizations = 0 ∨ cfg.optimizations = 1 ∨
          cfg.optimizations = 2)
      · rw [if_pos h3, if_pos h3]
      · rw [if_neg h3, if_neg h3]
        dsimp only
        have hws0 : isPyWhitespace (write_incipit cfg.memory (CodeBuilder.init cfg.indent
            (if cfg.tab_indent then '\t' else ' '))).indent_char = true :=
          incipit_ws _ _ _ (by cases cfg.tab_indent <;> decide)
        have hg0 : goodLines (write_incipit cfg.memory (CodeBuilder.init cfg.indent
            (if cfg.tab_indent then '\t' else ' '))) := incipit_goodLines _ _ _
        have hE : eraseComments (tokenize code) =
            eraseComments (tokenize (stripComments code)) := by
          unfold tokenize
          rw [eraseComments_append, eraseComments_append,
            eraseComments_scanGo _ _ _ (le_refl _), eraseComments_scanGo _ _ _ (le_refl _)]
          have hdata : (stripComments code).data =
              code.data.filter (fun c => (c ∈ instruction_set : Bool)) := rfl
          rw [hdata, List.filter_filter]
          simp
        have hA := runEvents_sim cfg.memory cfg.comments cfg.dump (tokenize code)
          (initState cfg.optimizations)
          (write_incipit cfg.memory (CodeBuilder.init cfg.indent
            (if cfg.tab_indent then '\t' else ' ')))
          (write_incipit cfg.memory (CodeBuilder.init cfg.indent
            (if cfg.tab_indent then '\t' else ' ')))
          hws0 hg0 ⟨rfl, rfl, rfl, rfl⟩
        have hB := runEvents_sim cfg.memory cfg.comments cfg.dump
          (tokenize (stripComments code)) (initState cfg.optimizations)
          (write_incipit cfg.memory (CodeBuilder.init cfg.indent
            (if cfg.tab_indent then '\t' else ' ')))
          (write_incipit cfg.memory (CodeBuilder.init cfg.indent
            (if cfg.tab_indent then '\t' else ' ')))
          hws0 hg0 ⟨rfl, rfl, rfl, rfl⟩
        rw [← hE] at hB
        rcases hA with ⟨e, a1, aM⟩ | ⟨s1, c1, cM, a1, aM, hsa⟩
        · rcases hB with ⟨f, b1, bM⟩ | ⟨s2, d1, dM, b1, bM, hsb⟩
          · have hef : e = f := Except.error.inj (aM.symm.trans bM)
            rw [a1, b1, hef]
          · rw [aM] at bM
            cases bM
        · rcases hB with ⟨f, b1, bM⟩ | ⟨s2, d1, dM, b1, bM, hsb⟩
          · rw [aM] at bM
            cases bM
          · rw [a1, b1]
            have h12 : (s1, cM) = (s2, dM) := Except.ok.inj (aM.symm.trans bM)
            have hcd : cM = dM := congrArg Prod.snd h12
            have hex : execLines c1 = execLines d1 := by
              rw [hsa.2.2.2, hsb.2.2.2, hcd]
            simp [Except.map, hex]
